import Mathlib

/-!
Verification of the VS-Karel core pipeline (Lexer, Parser, World, Interpreter).

This file is a shallow embedding of the TypeScript sources
`src/interpreter/karel.ts`, `src/interpreter/world.ts` and
`src/interpreter/interpreter.ts`.  TypeScript classes become structures,
in-place mutation becomes explicit state passing, thrown exceptions become
`Except` / explicit error outcomes, and the two unbounded loops of the code
(the interpreter's frame loop, which the code itself bounds by an iteration
ceiling, and the recursive-descent parser) are expressed with an explicit
fuel argument together with theorems showing the chosen fuel is never
exhausted.  JavaScript `Map`s keyed by the injective string keys
`positionKey` / `wallKey` are modelled by association lists keyed by the
underlying data, with `Map.set` insertion-order semantics.
-/

namespace VSKarel

/-- JavaScript `toLowerCase()` restricted to the ASCII alphabet of the Karel
language, written structurally so that it evaluates by kernel reduction. -/
def asciiLower (s : String) : String := ⟨s.data.map Char.toLower⟩

/-- JavaScript `toUpperCase()` (ASCII). -/
def asciiUpper (s : String) : String := ⟨s.data.map Char.toUpper⟩

/-! ## karel.ts -/

/-- `enum Direction` from karel.ts. -/
inductive Direction where
  | north
  | west
  | south
  | east
deriving DecidableEq, Repr

/-- `interface Position` — JS numbers are integers here. -/
structure Position where
  x : Int
  y : Int
deriving DecidableEq, Repr

/-- `DirectionVectors` from karel.ts. -/
def DirectionVectors : Direction → Position
  | .north => ⟨0, 1⟩
  | .west => ⟨-1, 0⟩
  | .south => ⟨0, -1⟩
  | .east => ⟨1, 0⟩

/-- `LeftTurnMap` from karel.ts (90° counter-clockwise). -/
def LeftTurnMap : Direction → Direction
  | .north => .west
  | .west => .south
  | .south => .east
  | .east => .north

/-- `RightTurnMap` from karel.ts (90° clockwise). -/
def RightTurnMap : Direction → Direction
  | .north => .east
  | .east => .south
  | .south => .west
  | .west => .north

/-- `class Karel` from karel.ts: position, facing, beepers in bag. -/
structure Karel where
  position : Position
  facing : Direction
  beepersInBag : Nat
deriving DecidableEq, Repr

namespace Karel

/-- `Karel.hasBeepersInBag`. -/
def hasBeepersInBag (k : Karel) : Bool :=
  decide (0 < k.beepersInBag)

/-- `Karel.frontPosition`. -/
def frontPosition (k : Karel) : Position :=
  let vector := DirectionVectors k.facing
  ⟨k.position.x + vector.x, k.position.y + vector.y⟩

/-- `Karel.leftPosition`. -/
def leftPosition (k : Karel) : Position :=
  let vector := DirectionVectors (LeftTurnMap k.facing)
  ⟨k.position.x + vector.x, k.position.y + vector.y⟩

/-- `Karel.rightPosition`. -/
def rightPosition (k : Karel) : Position :=
  let vector := DirectionVectors (RightTurnMap k.facing)
  ⟨k.position.x + vector.x, k.position.y + vector.y⟩

/-- `Karel.move`: updates position to the front cell (wall checks are World's job). -/
def move (k : Karel) : Karel :=
  { k with position := k.frontPosition }

/-- `Karel.turnLeft`. -/
def turnLeft (k : Karel) : Karel :=
  { k with facing := LeftTurnMap k.facing }

/-- `Karel.pickBeeper`: adds one beeper to the bag. -/
def pickBeeper (k : Karel) : Karel :=
  { k with beepersInBag := k.beepersInBag + 1 }

/-- `Karel.putBeeper`: returns `none` when the bag is empty (the TS method
returns `false` and leaves the robot unchanged), otherwise the robot with one
beeper fewer. -/
def putBeeper (k : Karel) : Option Karel :=
  if k.beepersInBag ≤ 0 then none
  else some { k with beepersInBag := k.beepersInBag - 1 }

/-- `Karel.isFacing`. -/
def isFacing (k : Karel) (d : Direction) : Bool :=
  decide (k.facing = d)

end Karel

/-! ## world.ts -/

/-- `interface Dimensions`. -/
structure Dimensions where
  width : Int
  height : Int
deriving DecidableEq, Repr

/-- `interface BeeperStack`. -/
structure BeeperStack where
  x : Int
  y : Int
  count : Nat
deriving DecidableEq, Repr

/-- `interface Wall`. -/
structure Wall where
  from_pos : Position
  to_pos : Position
deriving DecidableEq, Repr

/-- `interface KarelMap` (.klm file contents).  The TS `karel` field stores
the facing as a string parsed by `parseDirection`; we store the parsed
direction directly inside a `Karel` record. -/
structure KarelMap where
  dimensions : Dimensions
  karel : Karel
  beepers : List BeeperStack
  walls : List Wall
deriving Repr

/-- `wallKey(from, to)` from world.ts returns the string
`"x1,y1|x2,y2"` with the two positions sorted; since that string determines
the position pair, we model the key as the normalized pair itself. -/
def wallKey (f t : Position) : Position × Position :=
  if f.x < t.x ∨ (f.x = t.x ∧ f.y < t.y) then (f, t) else (t, f)

/-- `areAdjacent` from world.ts: Manhattan distance exactly 1. -/
def areAdjacent (a b : Position) : Bool :=
  let dx := (a.x - b.x).natAbs
  let dy := (a.y - b.y).natAbs
  decide ((dx = 1 ∧ dy = 0) ∨ (dx = 0 ∧ dy = 1))

/-- `Map.get` on the beeper map (`positionKey` is injective, so the map is an
association list keyed by the position itself). -/
def beepersGet (m : List (Position × Nat)) (p : Position) : Option Nat :=
  match m with
  | [] => none
  | (q, n) :: rest => if q = p then some n else beepersGet rest p

/-- `Map.set`: replace the entry in place when the key exists, else append. -/
def beepersSet (m : List (Position × Nat)) (p : Position) (n : Nat) :
    List (Position × Nat) :=
  match m with
  | [] => [(p, n)]
  | (q, c) :: rest => if q = p then (q, n) :: rest else (q, c) :: beepersSet rest p n

/-- `Map.delete`: remove the entry for the key. -/
def beepersDelete (m : List (Position × Nat)) (p : Position) :
    List (Position × Nat) :=
  match m with
  | [] => []
  | (q, c) :: rest => if q = p then rest else (q, c) :: beepersDelete rest p

/-- `Set.add` on the wall set: insertion-ordered, ignores duplicates. -/
def wallsAdd (ws : List (Position × Position)) (k : Position × Position) :
    List (Position × Position) :=
  if k ∈ ws then ws else ws ++ [k]

/-- `class World` from world.ts.  `_beepers` / `_walls` are the JS `Map` /
`Set` keyed by `positionKey` / `wallKey`. -/
structure World where
  dimensions : Dimensions
  karel : Karel
  beepers : List (Position × Nat)
  walls : List (Position × Position)
  initialKarel : Karel
  initialBeepers : List (Position × Nat)
  isModified : Bool
deriving Repr

namespace World

/-- `World.hasWall`. -/
def hasWall (w : World) (f t : Position) : Bool :=
  decide (wallKey f t ∈ w.walls)

/-- `World.isInBounds`. -/
def isInBounds (w : World) (p : Position) : Bool :=
  decide (1 ≤ p.x ∧ p.x ≤ w.dimensions.width ∧ 1 ≤ p.y ∧ p.y ≤ w.dimensions.height)

/-- `World.isBlocked`: out of bounds, or a wall between the cells. -/
def isBlocked (w : World) (f t : Position) : Bool :=
  if ¬ w.isInBounds t then true
  else w.hasWall f t

/-- `World.frontIsBlocked`. -/
def frontIsBlocked (w : World) : Bool :=
  w.isBlocked w.karel.position w.karel.frontPosition

/-- `World.frontIsClear`. -/
def frontIsClear (w : World) : Bool := !w.frontIsBlocked

/-- `World.leftIsBlocked`. -/
def leftIsBlocked (w : World) : Bool :=
  w.isBlocked w.karel.position w.karel.leftPosition

/-- `World.leftIsClear`. -/
def leftIsClear (w : World) : Bool := !w.leftIsBlocked

/-- `World.rightIsBlocked`. -/
def rightIsBlocked (w : World) : Bool :=
  w.isBlocked w.karel.position w.karel.rightPosition

/-- `World.rightIsClear`. -/
def rightIsClear (w : World) : Bool := !w.rightIsBlocked

/-- `World.getBeepers`: `this._beepers.get(positionKey(pos)) ?? 0`. -/
def getBeepers (w : World) (p : Position) : Nat :=
  (beepersGet w.beepers p).getD 0

/-- `World.nextToABeeper`. -/
def nextToABeeper (w : World) : Bool :=
  decide (0 < w.getBeepers w.karel.position)

/-- `World.beeperInBag`. -/
def beeperInBag (w : World) : Bool :=
  w.karel.hasBeepersInBag

/-- `World.addBeepers(pos, count)`. -/
def addBeepers (w : World) (p : Position) (count : Nat) : World :=
  let current := (beepersGet w.beepers p).getD 0
  { w with beepers := beepersSet w.beepers p (current + count) }

/-- `World.removeBeeper`: `none` when there is no beeper at the position (the
TS method returns `false`), otherwise the updated world — deleting the entry
when the count reaches zero. -/
def removeBeeper (w : World) (p : Position) : Option World :=
  let current := (beepersGet w.beepers p).getD 0
  if current ≤ 0 then none
  else if current = 1 then some { w with beepers := beepersDelete w.beepers p }
  else some { w with beepers := beepersSet w.beepers p (current - 1) }

/-- `World.move`: throws `ErrorMessages.moveBlocked()` when the front is
blocked (before any mutation), else moves the robot and sets the modified
flag. -/
def move (w : World) : Except String World :=
  if w.frontIsBlocked then .error "Cannot move: front is blocked"
  else .ok { w with karel := w.karel.move, isModified := true }

/-- `World.turnLeft`: never fails. -/
def turnLeft (w : World) : World :=
  { w with karel := w.karel.turnLeft, isModified := true }

/-- `World.pickBeeper`: throws `noBeepersToPickUp` when the current cell has
no beeper, else moves one beeper from the cell to the bag. -/
def pickBeeper (w : World) : Except String World :=
  let pos := w.karel.position
  match w.removeBeeper pos with
  | none => .error ("Cannot pick beeper: no beepers at position (" ++
      toString pos.x ++ ", " ++ toString pos.y ++ ")")
  | some w1 => .ok { w1 with karel := w1.karel.pickBeeper, isModified := true }

/-- `World.putBeeper`: throws `noBeepersInBag` when the bag is empty, else
moves one beeper from the bag to the current cell. -/
def putBeeper (w : World) : Except String World :=
  match w.karel.putBeeper with
  | none => .error "Cannot put beeper: no beepers in bag"
  | some k =>
      let w1 := { w with karel := k }
      .ok { w1.addBeepers w1.karel.position 1 with isModified := true }

/-- `World.evaluateCondition`: dispatch on the lowercased name; `none` models
the thrown unknown-condition error. -/
def evaluateCondition (w : World) (condition : String) : Option Bool :=
  let c := asciiLower condition
  if c = "front-is-clear" then some w.frontIsClear
  else if c = "front-is-blocked" then some w.frontIsBlocked
  else if c = "left-is-clear" then some w.leftIsClear
  else if c = "left-is-blocked" then some w.leftIsBlocked
  else if c = "right-is-clear" then some w.rightIsClear
  else if c = "right-is-blocked" then some w.rightIsBlocked
  else if c = "next-to-a-beeper" then some w.nextToABeeper
  else if c = "not-next-to-a-beeper" then some (!w.nextToABeeper)
  else if c = "facing-north" then some (w.karel.isFacing .north)
  else if c = "not-facing-north" then some (!w.karel.isFacing .north)
  else if c = "facing-south" then some (w.karel.isFacing .south)
  else if c = "not-facing-south" then some (!w.karel.isFacing .south)
  else if c = "facing-east" then some (w.karel.isFacing .east)
  else if c = "not-facing-east" then some (!w.karel.isFacing .east)
  else if c = "facing-west" then some (w.karel.isFacing .west)
  else if c = "not-facing-west" then some (!w.karel.isFacing .west)
  else if c = "beeper-in-bag" then some w.beeperInBag
  else none

/-- `World.reset`: restore robot and beepers from the construction snapshot,
clear the modified flag; walls and dimensions are untouched. -/
def reset (w : World) : World :=
  { w with karel := w.initialKarel,
           beepers := w.initialBeepers,
           isModified := false }

/-- The beeper-map initialization loop of the `World` constructor:
`for (const beeper of map.beepers) map.set(key, beeper.count)`. -/
def buildBeepers (bs : List BeeperStack) : List (Position × Nat) :=
  bs.foldl (fun m b => beepersSet m ⟨b.x, b.y⟩ b.count) []

/-- The wall initialization loop of the `World` constructor: each wall is
validated by `addWall` (throws — here `none` — on non-adjacent endpoints). -/
def buildWalls (ws : List Wall) : Option (List (Position × Position)) :=
  ws.foldlM (fun acc w =>
    if areAdjacent w.from_pos w.to_pos then some (wallsAdd acc (wallKey w.from_pos w.to_pos))
    else none) []

/-- The `World` constructor (`new World(map)`); `none` models the constructor
throwing on an invalid (non-adjacent) wall. -/
def ofMap (m : KarelMap) : Option World :=
  match buildWalls m.walls with
  | none => none
  | some walls => some
      { dimensions := m.dimensions
        karel := m.karel
        beepers := buildBeepers m.beepers
        walls := walls
        initialKarel := m.karel
        initialBeepers := buildBeepers m.beepers
        isModified := false }

end World

/-! ## interpreter.ts — AST -/

/-- The statement-level AST node types of interpreter.ts (`IfNode`,
`WhileNode`, `IterateNode`, `InstructionCallNode`, `BlockNode`).  A
`BlockNode` is its list of statements. -/
inductive Stmt where
  | call (name : String) (line : Nat)
  | ifS (condition : String) (thenBranch : List Stmt)
      (elseBranch : Option (List Stmt)) (line : Nat)
  | whileS (condition : String) (body : List Stmt) (line : Nat)
  | iterate (count : Nat) (body : List Stmt) (line : Nat)
  | block (statements : List Stmt)

/-- `DefineInstructionNode`. -/
structure DefineInstructionNode where
  name : String
  body : List Stmt
  line : Nat

/-- `ProgramNode` (the `ExecutionBlockNode` is its statement list). -/
structure ProgramNode where
  definitions : List DefineInstructionNode
  execution : List Stmt

/-! ## interpreter.ts — error messages (from i18n/messages.ts) -/

/-- `ErrorMessages.maxIterationsReached`. -/
def maxIterationsMsg (max : Nat) : String :=
  "Maximum iterations (" ++ toString max ++ ") reached: possible infinite loop"

/-- `ErrorMessages.unknownInstruction`. -/
def unknownInstructionMsg (name : String) (line : Nat) : String :=
  "Unknown instruction '" ++ name ++ "' at line " ++ toString line

/-- `ErrorMessages.unknownCondition`. -/
def unknownConditionMsg (name : String) (line : Nat) : String :=
  "Unknown condition '" ++ name ++ "' at line " ++ toString line

/-- `class RuntimeError`. -/
structure RuntimeError where
  message : String
  line : Option Nat
deriving DecidableEq, Repr

/-! ## interpreter.ts — the step interpreter -/

/-- `interface ExecutionFrame`: the tagged frame variants actually built by
the interpreter (a `block` frame with statements and cursor, a `while` frame,
an `iterate` frame with total and current counts). -/
inductive Frame where
  | block (statements : List Stmt) (index : Nat)
  | whileF (condition : String) (body : List Stmt)
  | iterateF (count : Nat) (current : Nat) (body : List Stmt)

/-- The mutable fields of `class Interpreter` used by run/step execution.
The execution stack is held top-first (the TS array keeps the top at the
end). -/
structure InterpState where
  world : World
  executionStack : List Frame
  running : Bool
  currentLine : Nat
  maxIterations : Nat
  iterationCount : Nat
  stepInitialized : Bool
  stepCompleted : Bool

/-- The program as held by a loaded interpreter: the AST plus the
`customInstructions` lowercase-name-to-body map built by `load`. -/
structure LoadedProgram where
  ast : ProgramNode
  customInstructions : List (String × List Stmt)

/-- `Map.set` on the custom-instruction map. -/
def instrSet (m : List (String × List Stmt)) (k : String) (v : List Stmt) :
    List (String × List Stmt) :=
  match m with
  | [] => [(k, v)]
  | (n, b) :: rest => if n = k then (n, v) :: rest else (n, b) :: instrSet rest k v

/-- `Map.get` on the custom-instruction map. -/
def instrGet (m : List (String × List Stmt)) (k : String) : Option (List Stmt) :=
  match m with
  | [] => none
  | (n, b) :: rest => if n = k then some b else instrGet rest k

/-- The custom-instruction map built by `Interpreter.load`:
`for (const def of ast.definitions) set(def.name.toLowerCase(), def.body)`. -/
def buildCustomInstructions (defs : List DefineInstructionNode) :
    List (String × List Stmt) :=
  defs.foldl (fun m d => instrSet m (asciiLower d.name) d.body) []

/-- `Interpreter.load` (given an already-parsed AST). -/
def loadProgram (ast : ProgramNode) : LoadedProgram :=
  ⟨ast, buildCustomInstructions ast.definitions⟩

/-- `Interpreter.executeCallSync`: dispatch one instruction call.  Built-ins
act on the world (their thrown errors become `RuntimeError`s carrying the
node's line), `turnoff` clears `running`, a known custom instruction pushes
its body as a new block frame, an unknown name throws. -/
def executeCallSync (prog : LoadedProgram) (s : InterpState)
    (name : String) (line : Nat) : Except RuntimeError InterpState :=
  let lname := asciiLower name
  let s := { s with currentLine := line }
  if lname = "move" then
    match s.world.move with
    | .error msg => .error ⟨msg, some line⟩
    | .ok w => .ok { s with world := w }
  else if lname = "turnleft" then .ok { s with world := s.world.turnLeft }
  else if lname = "pickbeeper" then
    match s.world.pickBeeper with
    | .error msg => .error ⟨msg, some line⟩
    | .ok w => .ok { s with world := w }
  else if lname = "putbeeper" then
    match s.world.putBeeper with
    | .error msg => .error ⟨msg, some line⟩
    | .ok w => .ok { s with world := w }
  else if lname = "turnoff" then .ok { s with running := false }
  else
    match instrGet prog.customInstructions lname with
    | some body =>
        .ok { s with executionStack := .block body 0 :: s.executionStack }
    | none => .error ⟨unknownInstructionMsg name line, some line⟩

/-- The possible results of one `executeOneStep` call: `more` / `noMore` are
its `true` / `false` returns, `err` a thrown `RuntimeError`, and `fuelOut`
the (provably unreachable) exhaustion of the explicit fuel that stands in
for the unbounded `while` loop. -/
inductive StepOutcome where
  | more
  | noMore
  | err (e : RuntimeError)
  | fuelOut
deriving DecidableEq, Repr

/-- The `while (stack.length > 0)` loop body of `Interpreter.executeOneStep`,
with one unit of fuel per loop iteration.  Each iteration increments the
iteration counter and throws the max-iterations error past the ceiling.
The returned state carries all mutations made up to the return or throw
(the world operations themselves fail before mutating). -/
def execOneStepAux (prog : LoadedProgram) :
    Nat → InterpState → StepOutcome × InterpState
  | 0, s => (.fuelOut, s)
  | fuel + 1, s =>
    match s.executionStack with
    | [] => (.noMore, s)
    | frame :: rest =>
      let s1 := { s with iterationCount := s.iterationCount + 1 }
      if s1.maxIterations < s1.iterationCount then
        (.err ⟨maxIterationsMsg s1.maxIterations, none⟩, s1)
      else
        match frame with
        | .block stmts index =>
          if stmts.length ≤ index then
            execOneStepAux prog fuel { s1 with executionStack := rest }
          else
            let statement := stmts.getD index (.block [])
            let s2 := { s1 with executionStack := .block stmts (index + 1) :: rest }
            match statement with
            | .call name line =>
              match executeCallSync prog s2 name line with
              | .error e => (.err e, s2)
              | .ok s3 => if !s3.running then (.noMore, s3) else (.more, s3)
            | .ifS condition thenBranch elseBranch _ =>
              match s2.world.evaluateCondition condition with
              | none => (.err ⟨unknownConditionMsg condition 0, none⟩, s2)
              | some b =>
                if b then
                  execOneStepAux prog fuel
                    { s2 with executionStack := .block thenBranch 0 :: s2.executionStack }
                else
                  match elseBranch with
                  | some els =>
                    execOneStepAux prog fuel
                      { s2 with executionStack := .block els 0 :: s2.executionStack }
                  | none => execOneStepAux prog fuel s2
            | .whileS condition body _ =>
              execOneStepAux prog fuel
                { s2 with executionStack := .whileF condition body :: s2.executionStack }
            | .iterate count body _ =>
              if 0 < count then
                execOneStepAux prog fuel
                  { s2 with executionStack := .iterateF count 0 body :: s2.executionStack }
              else execOneStepAux prog fuel s2
            | .block statements =>
              execOneStepAux prog fuel
                { s2 with executionStack := .block statements 0 :: s2.executionStack }
        | .whileF condition body =>
          match s1.world.evaluateCondition condition with
          | none => (.err ⟨unknownConditionMsg condition 0, none⟩, s1)
          | some b =>
            if !b then execOneStepAux prog fuel { s1 with executionStack := rest }
            else
              execOneStepAux prog fuel
                { s1 with executionStack :=
                    .block body 0 :: .whileF condition body :: rest }
        | .iterateF count current body =>
          if count ≤ current then
            execOneStepAux prog fuel { s1 with executionStack := rest }
          else
            execOneStepAux prog fuel
              { s1 with executionStack :=
                  .block body 0 :: .iterateF count (current + 1) body :: rest }

/-- `Interpreter.executeOneStep`: the loop with enough fuel (one unit per
iteration; the ceiling check stops the loop after at most
`maxIterations + 1` iterations, see `execOneStepAux_no_fuelOut`). -/
def executeOneStep (prog : LoadedProgram) (s : InterpState) :
    StepOutcome × InterpState :=
  execOneStepAux prog (s.maxIterations + 1) s

/-- The stack (re)initialization shared by `Interpreter.step` (lazy init) and
`Interpreter.initializeStepMode`. -/
def stepInit (prog : LoadedProgram) (s : InterpState) : InterpState :=
  { s with executionStack := [.block prog.ast.execution 0],
           stepInitialized := true,
           stepCompleted := false,
           running := true,
           iterationCount := 0 }

/-- `Interpreter.step`: lazily initialize, return `false` immediately when
completed, else resume and execute one step; a `false` return from
`executeOneStep` or a thrown `RuntimeError` marks completion. -/
def stepFn (prog : LoadedProgram) (s : InterpState) : Bool × InterpState :=
  let s := if !s.stepInitialized then stepInit prog s else s
  if s.stepCompleted then (false, s)
  else
    let s := { s with running := true }
    match executeOneStep prog s with
    | (.more, s1) => (true, s1)
    | (.noMore, s1) => (false, { s1 with stepCompleted := true })
    | (.err _, s1) => (false, { s1 with stepCompleted := true })
    | (.fuelOut, s1) => (false, s1)

/-- The `while (running && !stepCompleted)` loop of `Interpreter.run`, one
unit of fuel per `executeOneStep` call (the inter-step animation delay is
irrelevant to the state). -/
def runLoopAux (prog : LoadedProgram) : Nat → InterpState → InterpState
  | 0, s => s
  | fuel + 1, s =>
    if s.running ∧ ¬ s.stepCompleted then
      match executeOneStep prog s with
      | (.more, s1) => runLoopAux prog fuel s1
      | (.noMore, s1) => { s1 with stepCompleted := true }
      | (.err _, s1) => { s1 with stepCompleted := true }
      | (.fuelOut, s1) => s1
    else s

/-- `Interpreter.run`: initialize step mode if needed, then drive
`executeOneStep` to completion. -/
def runFn (prog : LoadedProgram) (fuel : Nat) (s : InterpState) : InterpState :=
  let s := if !s.stepInitialized then stepInit prog s else s
  runLoopAux prog fuel s

/-- Repeatedly call `step()` until it returns `false` (fuel-bounded; by
`stepRepeat_completes` the fuel `maxIterations + 2` always reaches the
`false` return). -/
def stepRepeat (prog : LoadedProgram) : Nat → InterpState → InterpState
  | 0, s => s
  | fuel + 1, s =>
    match stepFn prog s with
    | (true, s1) => stepRepeat prog fuel s1
    | (false, s1) => s1

/-- The interpreter state right after `new Interpreter(world)` followed by
`load` — `maxIterations` has its default value 100000, nothing initialized. -/
def freshInterp (w : World) : InterpState :=
  { world := w
    executionStack := []
    running := false
    currentLine := 0
    maxIterations := 100000
    iterationCount := 0
    stepInitialized := false
    stepCompleted := false }

/-- A fresh interpreter state with a configured iteration ceiling. -/
def freshInterpWith (w : World) (maxIter : Nat) : InterpState :=
  { freshInterp w with maxIterations := maxIter }

/-! ## Sequences of world operations (for the reset claim) -/

/-- The four mutating robot operations of `World`. -/
inductive WorldOp where
  | move
  | turnLeft
  | pickBeeper
  | putBeeper
deriving DecidableEq, Repr

/-- Apply one operation. -/
def applyOp (w : World) : WorldOp → Except String World
  | .move => w.move
  | .turnLeft => .ok w.turnLeft
  | .pickBeeper => w.pickBeeper
  | .putBeeper => w.putBeeper

/-- Apply a sequence of operations, stopping at the first failure. -/
def applyOps (w : World) : List WorldOp → Except String World
  | [] => .ok w
  | op :: rest =>
    match applyOp w op with
    | .error e => .error e
    | .ok w1 => applyOps w1 rest

/-! ## interpreter.ts — Lexer -/

/-- `enum TokenType`. -/
inductive TokenType where
  | BeginningOfProgram
  | EndOfProgram
  | BeginningOfExecution
  | EndOfExecution
  | Begin
  | End
  | If
  | Then
  | Else
  | While
  | Do
  | Iterate
  | Times
  | Move
  | TurnLeft
  | PickBeeper
  | PutBeeper
  | TurnOff
  | DefineNewInstruction
  | As
  | Condition
  | Number
  | Identifier
  | Semicolon
  | NewLine
  | EOF
deriving DecidableEq, Repr

/-- `interface Token`. -/
structure Token where
  type : TokenType
  value : String
  line : Nat
  column : Nat
  indent : Nat
deriving DecidableEq, Repr

/-- `VALID_CONDITIONS`: the fixed 17-entry condition-name set. -/
def VALID_CONDITIONS : List String :=
  ["front-is-clear", "front-is-blocked", "left-is-clear", "left-is-blocked",
   "right-is-clear", "right-is-blocked", "next-to-a-beeper", "not-next-to-a-beeper",
   "facing-north", "not-facing-north", "facing-south", "not-facing-south",
   "facing-east", "not-facing-east", "facing-west", "not-facing-west",
   "beeper-in-bag"]

/-- `BUILT_IN_INSTRUCTIONS`. -/
def BUILT_IN_INSTRUCTIONS : List String :=
  ["move", "turnleft", "pickbeeper", "putbeeper", "turnoff"]

/-- The classification part of `Lexer.addToken`: keyword table, then number,
then condition, otherwise identifier. -/
def classifyWord (word : String) : TokenType :=
  match asciiUpper word with
  | "BEGINNING-OF-PROGRAM" => .BeginningOfProgram
  | "END-OF-PROGRAM" => .EndOfProgram
  | "BEGINNING-OF-EXECUTION" => .BeginningOfExecution
  | "END-OF-EXECUTION" => .EndOfExecution
  | "BEGIN" => .Begin
  | "END" => .End
  | "IF" => .If
  | "THEN" => .Then
  | "ELSE" => .Else
  | "WHILE" => .While
  | "DO" => .Do
  | "ITERATE" => .Iterate
  | "TIMES" => .Times
  | "DEFINE-NEW-INSTRUCTION" => .DefineNewInstruction
  | "AS" => .As
  | "MOVE" => .Move
  | "TURNLEFT" => .TurnLeft
  | "PICKBEEPER" => .PickBeeper
  | "PUTBEEPER" => .PutBeeper
  | "TURNOFF" => .TurnOff
  | _ =>
    if !word.data.isEmpty && word.data.all Char.isDigit then .Number
    else if VALID_CONDITIONS.contains (asciiLower word) then .Condition
    else .Identifier

/-- Count the leading tab characters of a line. -/
def countLeadingTabs : List Char → Nat
  | '\t' :: rest => countLeadingTabs rest + 1
  | _ => 0

/-- JavaScript `String.trim()` on a character list. -/
def jsTrim (l : List Char) : List Char :=
  ((l.dropWhile Char.isWhitespace).reverse.dropWhile Char.isWhitespace).reverse

/-- Split a character list at every separator position, keeping empty
segments (like JS `split` with a single-character separator). -/
def splitOnChar (sep : Char) : List Char → List (List Char)
  | [] => [[]]
  | c :: rest =>
    match splitOnChar sep rest with
    | [] => [[]]
    | g :: gs => if c = sep then [] :: g :: gs else (c :: g) :: gs

/-- Split a character list at whitespace positions (JS `split(/\s+/)` on a
trimmed string equals this followed by dropping empty segments). -/
def splitOnWhitespace : List Char → List (List Char)
  | [] => [[]]
  | c :: rest =>
    match splitOnWhitespace rest with
    | [] => [[]]
    | g :: gs => if c.isWhitespace then [] :: g :: gs else (c :: g) :: gs

/-- Does the line content start with the comment marker `//`? -/
def startsWithSlashes : List Char → Bool
  | '/' :: '/' :: _ => true
  | _ => false

/-- `Lexer.tokenizeLine`: count leading tabs, skip blank/comment lines, split
the trimmed content into whitespace-separated words, split a trailing
semicolon off each word, and classify.  All tokens of the line carry the same
column (the tab count, as in the source) and 1-based line number. -/
def tokenizeLine (lineIdx : Nat) (line : List Char) : List Token :=
  let indent := countLeadingTabs line
  let content := jsTrim (line.drop indent)
  if content.isEmpty || startsWithSlashes content then []
  else
    let words := (splitOnWhitespace content).filter (fun wl => !wl.isEmpty)
    (words.map (fun wl =>
      let word : String := ⟨wl⟩
      let hasSemicolon := word.data.getLast? = some ';'
      let w : String := if hasSemicolon then ⟨word.data.dropLast⟩ else word
      (if !w.data.isEmpty then
        [{ type := classifyWord w, value := w, line := lineIdx + 1,
           column := indent, indent := indent : Token }]
       else []) ++
      (if hasSemicolon then
        [{ type := .Semicolon, value := ";", line := lineIdx + 1,
           column := indent, indent := indent : Token }]
       else []))).flatten

/-- `Lexer.tokenize`: tokenize every line and append the end-of-input token
(carrying the line count). -/
def tokenize (source : String) : List Token :=
  let lines := splitOnChar '\n' source.data
  ((lines.enum.map (fun p => tokenizeLine p.1 p.2)).flatten) ++
    [{ type := .EOF, value := "", line := lines.length, column := 0, indent := 0 }]

/-! ## interpreter.ts — Parser -/

/-- `class ParseError` (thrown only for structural violations). -/
structure ParseError where
  message : String
  line : Nat
  column : Option Nat
deriving DecidableEq, Repr

/-- Diagnostic severity. -/
inductive Severity where
  | error
  | warning
  | info
deriving DecidableEq, Repr

/-- `interface Diagnostic`. -/
structure Diagnostic where
  message : String
  line : Nat
  column : Nat
  endColumn : Option Nat
  severity : Severity
deriving DecidableEq, Repr

/-- The mutable fields of `class Parser`. -/
structure ParserState where
  tokens : List Token
  current : Nat
  diagnostics : List Diagnostic
  customInstructions : List String
deriving Repr

/-- Result of a parsing function: a value plus the parser state, a thrown
`ParseError` plus the parser state (its accumulated diagnostics survive the
throw), or exhaustion of the explicit fuel standing in for the recursion
(provably unreachable for the fuel `parse` supplies). -/
inductive PResult (α : Type) where
  | ok (val : α) (s : ParserState)
  | err (e : ParseError) (s : ParserState)
  | fuelOut

/-! The remaining structural error messages from i18n/messages.ts. -/

def missingProgramStartMsg : String :=
  "Missing BEGINNING-OF-PROGRAM at the start of the program"

def missingProgramEndMsg : String :=
  "Missing END-OF-PROGRAM at the end of the program"

def missingExecutionStartMsg : String :=
  "Missing BEGINNING-OF-EXECUTION before instructions"

def missingExecutionEndMsg : String :=
  "Missing END-OF-EXECUTION after instructions"

def missingTurnoffMsg : String :=
  "Missing turnoff instruction before END-OF-EXECUTION"

def unmatchedBeginMsg (line : Nat) : String :=
  "Unmatched BEGIN at line " ++ toString line

def missingSemicolonMsg (line : Nat) : String :=
  "Missing semicolon at line " ++ toString line

def invalidIterateCountMsg (line : Nat) : String :=
  "Invalid ITERATE count at line " ++ toString line ++ ": must be a positive integer"

namespace Parser

/-- The out-of-range default of `this.tokens[i]` (never reached in practice:
the token list ends with an EOF token past which the cursor cannot move). -/
def eofToken : Token := { type := .EOF, value := "", line := 0, column := 0, indent := 0 }

/-- `Parser.peek`. -/
def peek (s : ParserState) : Token := s.tokens.getD s.current eofToken

/-- `Parser.isAtEnd`. -/
def isAtEnd (s : ParserState) : Bool := (peek s).type == .EOF

/-- `Parser.check`. -/
def check (s : ParserState) (t : TokenType) : Bool := (peek s).type == t

/-- `Parser.advance`: move the cursor unless at the end, return the token
before the (new) cursor. -/
def advance (s : ParserState) : Token × ParserState :=
  let s1 := if isAtEnd s then s else { s with current := s.current + 1 }
  (s1.tokens.getD (s1.current - 1) eofToken, s1)

/-- `this.diagnostics.push(d)`. -/
def pushDiag (s : ParserState) (d : Diagnostic) : ParserState :=
  { s with diagnostics := s.diagnostics ++ [d] }

/-- `parseInt(value, 10)` on a digits-only word. -/
def parseIntDec (v : String) : Nat :=
  v.data.foldl (fun n c => n * 10 + (c.toNat - 48)) 0

/-- The `turnoff`-as-last-statement check of `Parser.parseProgram`. -/
def turnoffMissing (statements : List Stmt) : Bool :=
  match statements.getLast? with
  | some (.call name _) => asciiLower name != "turnoff"
  | _ => true

/-- `Parser.parseInstructionCall`: always succeeds, pushing unknown-
instruction and missing-semicolon diagnostics as needed, consuming an
optional trailing semicolon. -/
def parseInstructionCall (s : ParserState) : Stmt × ParserState :=
  let (token, s) := advance s
  let name := token.value
  let line := token.line
  let lowerName := asciiLower name
  let s :=
    if !(BUILT_IN_INSTRUCTIONS.contains lowerName)
        && !(s.customInstructions.contains lowerName) then
      pushDiag s ⟨unknownInstructionMsg name line, line, token.column, none, .error⟩
    else s
  let s :=
    if !(check s .Semicolon) && !(check s .End) && !(check s .Else)
        && !(check s .EndOfExecution) then
      pushDiag s ⟨missingSemicolonMsg line, line, token.column + name.length, none, .error⟩
    else if check s .Semicolon then (advance s).2
    else s
  (.call name line, s)

mutual

/-- `Parser.parseStatement`. -/
def parseStatement : Nat → ParserState → PResult Stmt
  | 0, _ => .fuelOut
  | fuel + 1, s =>
    match (peek s).type with
    | .If => parseIf fuel s
    | .While => parseWhile fuel s
    | .Iterate => parseIterate fuel s
    | .Begin =>
      match parseBlock fuel s with
      | .ok stmts s1 => .ok (.block stmts) s1
      | .err e s1 => .err e s1
      | .fuelOut => .fuelOut
    | _ =>
      let r := parseInstructionCall s
      .ok r.1 r.2

/-- `Parser.parseIf`. -/
def parseIf : Nat → ParserState → PResult Stmt
  | 0, _ => .fuelOut
  | fuel + 1, s =>
    let r0 := advance s
    let ifToken := r0.1
    let s := r0.2
    if !(check s .Condition) then
      .err ⟨unknownConditionMsg (peek s).value (peek s).line, (peek s).line, none⟩ s
    else
      let r1 := advance s
      let condition := r1.1.value
      let s := r1.2
      if !(check s .Then) then
        .err ⟨"Expected THEN after condition", (peek s).line, none⟩ s
      else
        let s := (advance s).2
        match parseBlock fuel s with
        | .fuelOut => .fuelOut
        | .err e s1 => .err e s1
        | .ok thenBranch s1 =>
          if check s1 .Else then
            let s2 := (advance s1).2
            match parseBlock fuel s2 with
            | .fuelOut => .fuelOut
            | .err e s3 => .err e s3
            | .ok elseBranch s3 =>
              .ok (.ifS condition thenBranch (some elseBranch) ifToken.line) s3
          else .ok (.ifS condition thenBranch none ifToken.line) s1

/-- `Parser.parseWhile`. -/
def parseWhile : Nat → ParserState → PResult Stmt
  | 0, _ => .fuelOut
  | fuel + 1, s =>
    let r0 := advance s
    let whileToken := r0.1
    let s := r0.2
    if !(check s .Condition) then
      .err ⟨unknownConditionMsg (peek s).value (peek s).line, (peek s).line, none⟩ s
    else
      let r1 := advance s
      let condition := r1.1.value
      let s := r1.2
      if !(check s .Do) then
        .err ⟨"Expected DO after condition", (peek s).line, none⟩ s
      else
        let s := (advance s).2
        match parseBlock fuel s with
        | .fuelOut => .fuelOut
        | .err e s1 => .err e s1
        | .ok body s1 => .ok (.whileS condition body whileToken.line) s1

/-- `Parser.parseIterate`. -/
def parseIterate : Nat → ParserState → PResult Stmt
  | 0, _ => .fuelOut
  | fuel + 1, s =>
    let r0 := advance s
    let iterateToken := r0.1
    let s := r0.2
    if !(check s .Number) then
      .err ⟨invalidIterateCountMsg (peek s).line, (peek s).line, none⟩ s
    else
      let r1 := advance s
      let count := parseIntDec r1.1.value
      let s := r1.2
      if !(check s .Times) then
        .err ⟨"Expected TIMES after number", (peek s).line, none⟩ s
      else
        let s := (advance s).2
        match parseBlock fuel s with
        | .fuelOut => .fuelOut
        | .err e s1 => .err e s1
        | .ok body s1 => .ok (.iterate count body iterateToken.line) s1

/-- `Parser.parseBlock` (returns the block's statement list). -/
def parseBlock : Nat → ParserState → PResult (List Stmt)
  | 0, _ => .fuelOut
  | fuel + 1, s =>
    if !(check s .Begin) then
      .err ⟨"Expected BEGIN", (peek s).line, none⟩ s
    else
      let s := (advance s).2
      match parseBlockStmts fuel s with
      | .fuelOut => .fuelOut
      | .err e s1 => .err e s1
      | .ok statements s1 =>
        if !(check s1 .End) then
          .err ⟨unmatchedBeginMsg (peek s1).line, (peek s1).line, none⟩ s1
        else .ok statements ((advance s1).2)

/-- The statement loop of `parseBlock` (`while` not END and not EOF). -/
def parseBlockStmts : Nat → ParserState → PResult (List Stmt)
  | 0, _ => .fuelOut
  | fuel + 1, s =>
    if !(check s .End) && !(check s .EOF) then
      match parseStatement fuel s with
      | .fuelOut => .fuelOut
      | .err e s1 => .err e s1
      | .ok stmt s1 =>
        match parseBlockStmts fuel s1 with
        | .fuelOut => .fuelOut
        | .err e s2 => .err e s2
        | .ok stmts s2 => .ok (stmt :: stmts) s2
    else .ok [] s

/-- `Parser.parseDefineInstruction`. -/
def parseDefineInstruction : Nat → ParserState → PResult DefineInstructionNode
  | 0, _ => .fuelOut
  | fuel + 1, s =>
    let r0 := advance s
    let defToken := r0.1
    let s := r0.2
    if !(check s .Identifier) then
      .err ⟨"Expected instruction name after DEFINE-NEW-INSTRUCTION", (peek s).line, none⟩ s
    else
      let r1 := advance s
      let name := r1.1.value
      let s := r1.2
      let s := { s with customInstructions :=
        if s.customInstructions.contains (asciiLower name) then s.customInstructions
        else s.customInstructions ++ [asciiLower name] }
      if !(check s .As) then
        .err ⟨"Expected AS after instruction name", (peek s).line, none⟩ s
      else
        let s := (advance s).2
        match parseBlock fuel s with
        | .fuelOut => .fuelOut
        | .err e s1 => .err e s1
        | .ok body s1 => .ok ⟨name, body, defToken.line⟩ s1

/-- The definition loop of `parseProgram` (`while` DEFINE-NEW-INSTRUCTION). -/
def parseDefsLoop : Nat → ParserState → PResult (List DefineInstructionNode)
  | 0, _ => .fuelOut
  | fuel + 1, s =>
    if check s .DefineNewInstruction then
      match parseDefineInstruction fuel s with
      | .fuelOut => .fuelOut
      | .err e s1 => .err e s1
      | .ok d s1 =>
        match parseDefsLoop fuel s1 with
        | .fuelOut => .fuelOut
        | .err e s2 => .err e s2
        | .ok ds s2 => .ok (d :: ds) s2
    else .ok [] s

/-- The execution-statement loop of `parseProgram` (`while` not
END-OF-EXECUTION and not EOF). -/
def parseExecStmts : Nat → ParserState → PResult (List Stmt)
  | 0, _ => .fuelOut
  | fuel + 1, s =>
    if !(check s .EndOfExecution) && !(check s .EOF) then
      match parseStatement fuel s with
      | .fuelOut => .fuelOut
      | .err e s1 => .err e s1
      | .ok stmt s1 =>
        match parseExecStmts fuel s1 with
        | .fuelOut => .fuelOut
        | .err e s2 => .err e s2
        | .ok stmts s2 => .ok (stmt :: stmts) s2
    else .ok [] s

/-- `Parser.parseProgram`: delimiters, definitions, execution statements,
the missing-turnoff diagnostic (pushed one line before the cursor token),
then the closing delimiters. -/
def parseProgram : Nat → ParserState → PResult ProgramNode
  | 0, _ => .fuelOut
  | fuel + 1, s =>
    if !(check s .BeginningOfProgram) then
      .err ⟨missingProgramStartMsg, (peek s).line, none⟩ s
    else
      let s := (advance s).2
      match parseDefsLoop fuel s with
      | .fuelOut => .fuelOut
      | .err e s1 => .err e s1
      | .ok definitions s1 =>
        if !(check s1 .BeginningOfExecution) then
          .err ⟨missingExecutionStartMsg, (peek s1).line, none⟩ s1
        else
          let s2 := (advance s1).2
          match parseExecStmts fuel s2 with
          | .fuelOut => .fuelOut
          | .err e s3 => .err e s3
          | .ok statements s3 =>
            let s4 :=
              if turnoffMissing statements then
                pushDiag s3 ⟨missingTurnoffMsg, (peek s3).line - 1, 0, none, .error⟩
              else s3
            if !(check s4 .EndOfExecution) then
              .err ⟨missingExecutionEndMsg, (peek s4).line, none⟩ s4
            else
              let s5 := (advance s4).2
              if !(check s5 .EndOfProgram) then
                .err ⟨missingProgramEndMsg, (peek s5).line, none⟩ s5
              else .ok ⟨definitions, statements⟩ ((advance s5).2)

end

/-- `Parser.parse`: tokenize, run `parseProgram` from a clean state (fuel
three per token plus slack, proven sufficient), catch a thrown `ParseError`
as a final error diagnostic with a `null` AST.  The outer `none` marks fuel
exhaustion and is provably never returned. -/
def parse (source : String) : Option (Option ProgramNode × List Diagnostic) :=
  let tokens := tokenize source
  let s0 : ParserState := ⟨tokens, 0, [], []⟩
  match parseProgram (3 * tokens.length + 10) s0 with
  | .ok ast s => some (some ast, s.diagnostics)
  | .err e s =>
      some (none, s.diagnostics ++ [⟨e.message, e.line, e.column.getD 0, none, .error⟩])
  | .fuelOut => none

end Parser

/-- Count how many consecutive `step()` calls return `true` before the first
`false` (the number of "visible steps" a driver observes). -/
def visibleStepCount (prog : LoadedProgram) : Nat → InterpState → Nat
  | 0, _ => 0
  | fuel + 1, s =>
    match stepFn prog s with
    | (true, s1) => visibleStepCount prog fuel s1 + 1
    | (false, _) => 0

/-- An empty 3×3 world, robot at (1,1) facing north, no beepers, no walls. -/
def emptyWorld3 : World :=
  { dimensions := ⟨3, 3⟩
    karel := ⟨⟨1, 1⟩, .north, 0⟩
    beepers := []
    walls := []
    initialKarel := ⟨⟨1, 1⟩, .north, 0⟩
    initialBeepers := []
    isModified := false }

/-- The spec's scenario program: `turnright` defined as three `turnleft`
calls, invoked once, then `turnoff`. -/
def turnrightProgram : ProgramNode :=
  { definitions :=
      [⟨"turnright", [.call "turnleft" 3, .call "turnleft" 4, .call "turnleft" 5], 2⟩]
    execution := [.call "turnright" 8, .call "turnoff" 9] }

/-- Witness data for the reset claim: a 2×1 world map. -/
def c4map : KarelMap :=
  { dimensions := ⟨2, 1⟩
    karel := ⟨⟨1, 1⟩, .east, 0⟩
    beepers := [⟨1, 1, 2⟩]
    walls := [] }

/-- The world built from `c4map`. -/
def c4w : World :=
  { dimensions := ⟨2, 1⟩
    karel := ⟨⟨1, 1⟩, .east, 0⟩
    beepers := [(⟨1, 1⟩, 2)]
    walls := []
    initialKarel := ⟨⟨1, 1⟩, .east, 0⟩
    initialBeepers := [(⟨1, 1⟩, 2)]
    isModified := false }

/-- `c4w` after a successful `pickBeeper` then `turnLeft`. -/
def c4w1 : World :=
  { dimensions := ⟨2, 1⟩
    karel := ⟨⟨1, 1⟩, .north, 1⟩
    beepers := [(⟨1, 1⟩, 1)]
    walls := []
    initialKarel := ⟨⟨1, 1⟩, .east, 0⟩
    initialBeepers := [(⟨1, 1⟩, 2)]
    isModified := true }

/-- Witness world for the beeper claim: one beeper under the robot, one in
the bag. -/
def c5w : World :=
  { dimensions := ⟨2, 2⟩
    karel := ⟨⟨1, 1⟩, .north, 1⟩
    beepers := [(⟨1, 1⟩, 1)]
    walls := []
    initialKarel := ⟨⟨1, 1⟩, .north, 1⟩
    initialBeepers := [(⟨1, 1⟩, 1)]
    isModified := false }

/-- An always-true `WHILE` loop (`WHILE not-facing-west DO BEGIN END` with
the robot facing north and an empty body): only the iteration ceiling stops
it. -/
def whileTrueProgram : ProgramNode :=
  { definitions := []
    execution := [.whileS "not-facing-west" [] 2] }

/-- A state whose iteration counter already sits at its (small) ceiling,
with a frame still on the stack. -/
def c6state : InterpState :=
  { world := emptyWorld3
    executionStack := [.block [] 0]
    running := true
    currentLine := 0
    maxIterations := 3
    iterationCount := 3
    stepInitialized := true
    stepCompleted := false }

/-- A completed interpreter state over `emptyWorld3` (as left behind by a
finished run). -/
def completedState : InterpState :=
  { world := emptyWorld3
    executionStack := [.block [] 1]
    running := false
    currentLine := 9
    maxIterations := 100000
    iterationCount := 7
    stepInitialized := true
    stepCompleted := true }

/-! ## Theorems -/

/-! ### Parser helper lemmas -/

/-- Tokens remaining before the cursor reaches the end of the token list. -/
def remainingTokens (s : ParserState) : Nat := s.tokens.length - s.current

/-- Every `If`/`While` condition name appearing in a statement belongs to the
fixed 17-entry valid-condition set (case-insensitively). -/
inductive CondOK : Stmt → Prop where
  | call (name : String) (line : Nat) : CondOK (.call name line)
  | ifS (c : String) (thenB : List Stmt) (elseB : Option (List Stmt)) (line : Nat) :
      VALID_CONDITIONS.contains (asciiLower c) = true →
      (∀ st ∈ thenB, CondOK st) →
      (∀ els, elseB = some els → ∀ st ∈ els, CondOK st) →
      CondOK (.ifS c thenB elseB line)
  | whileS (c : String) (body : List Stmt) (line : Nat) :
      VALID_CONDITIONS.contains (asciiLower c) = true →
      (∀ st ∈ body, CondOK st) →
      CondOK (.whileS c body line)
  | iterate (n : Nat) (body : List Stmt) (line : Nat) :
      (∀ st ∈ body, CondOK st) →
      CondOK (.iterate n body line)
  | block (stmts : List Stmt) :
      (∀ st ∈ stmts, CondOK st) →
      CondOK (.block stmts)

/-- Every `Condition`-typed token of the parser state carries a valid
condition name. -/
def TokensCondSound (s : ParserState) : Prop :=
  ∀ t ∈ s.tokens, t.type = .Condition →
    VALID_CONDITIONS.contains (asciiLower t.value) = true

/-- The structural (fatal) parse-error messages: exactly those thrown as
`ParseError` by the parser functions. -/
def structuralMsg (m : String) : Prop :=
  m = missingProgramStartMsg ∨
  m = missingExecutionStartMsg ∨
  m = missingExecutionEndMsg ∨
  m = missingProgramEndMsg ∨
  m = "Expected BEGIN" ∨
  (∃ l, m = unmatchedBeginMsg l) ∨
  (∃ n l, m = unknownConditionMsg n l) ∨
  m = "Expected THEN after condition" ∨
  m = "Expected DO after condition" ∨
  (∃ l, m = invalidIterateCountMsg l) ∨
  m = "Expected TIMES after number" ∨
  m = "Expected instruction name after DEFINE-NEW-INSTRUCTION" ∨
  m = "Expected AS after instruction name"

/-- The recoverable diagnostics pushable by the statement-level functions. -/
def subRecovMsg (m : String) : Prop :=
  (∃ n l, m = unknownInstructionMsg n l) ∨ (∃ l, m = missingSemicolonMsg l)

/-- All recoverable diagnostic messages (statement-level ones plus the
missing-turnoff diagnostic of `parseProgram`). -/
def recoverableMsg (m : String) : Prop :=
  subRecovMsg m ∨ m = missingTurnoffMsg

/-- The diagnostics of `s1` extend those of `s` by statement-level
recoverable diagnostics only. -/
def diagDelta (s s1 : ParserState) : Prop :=
  ∃ ds, s1.diagnostics = s.diagnostics ++ ds ∧ ∀ d ∈ ds, subRecovMsg d.message

/-- The diagnostics of `s1` extend those of `s` by recoverable diagnostics
only. -/
def progDelta (s s1 : ParserState) : Prop :=
  ∃ ds, s1.diagnostics = s.diagnostics ++ ds ∧ ∀ d ∈ ds, recoverableMsg d.message

/-- A program whose missing END-OF-PROGRAM aborts the parse after an
unknown-instruction diagnostic was collected. -/
def srcC7bad : String :=
  "BEGINNING-OF-PROGRAM\nBEGINNING-OF-EXECUTION\nfoo;\nturnoff;\nEND-OF-EXECUTION"

/-- A program with three recoverable diagnostics that still parses. -/
def srcC7multi : String :=
  "BEGINNING-OF-PROGRAM\nBEGINNING-OF-EXECUTION\nfoo;\nbar\nturnoff;\nEND-OF-EXECUTION\nEND-OF-PROGRAM"

/-- A well-delimited program whose last statement is not `turnoff`. -/
def srcC8 : String :=
  "BEGINNING-OF-PROGRAM\nBEGINNING-OF-EXECUTION\nmove;\nEND-OF-EXECUTION\nEND-OF-PROGRAM"

/-- A program with a `WHILE` condition. -/
def srcC9 : String :=
  "BEGINNING-OF-PROGRAM\nBEGINNING-OF-EXECUTION\nWHILE front-is-clear DO\nBEGIN\nmove;\nEND\nturnoff;\nEND-OF-EXECUTION\nEND-OF-PROGRAM"

namespace Parser

theorem pushDiag_tokens (s : ParserState) (d : Diagnostic) :
    (pushDiag s d).tokens = s.tokens := rfl

theorem pushDiag_current (s : ParserState) (d : Diagnostic) :
    (pushDiag s d).current = s.current := rfl

theorem advance_tokens (s : ParserState) : (advance s).2.tokens = s.tokens := by
  unfold advance
  split <;> rfl

theorem advance_current (s : ParserState) :
    s.current ≤ (advance s).2.current ∧ (advance s).2.current ≤ s.current + 1 := by
  unfold advance
  split <;> dsimp only <;> omega

theorem advance_current_of_not_atEnd (s : ParserState) (h : isAtEnd s = false) :
    (advance s).2.current = s.current + 1 := by
  unfold advance
  rw [h]
  rfl

theorem advance_diagnostics (s : ParserState) :
    (advance s).2.diagnostics = s.diagnostics := by
  unfold advance
  split <;> rfl

theorem advance_customInstructions (s : ParserState) :
    (advance s).2.customInstructions = s.customInstructions := by
  unfold advance
  split <;> rfl

/-- A passed `check` for a non-EOF token type means the parser is not at the
end. -/
theorem check_not_atEnd (s : ParserState) (t : TokenType)
    (h : check s t = true) (ht : t ≠ .EOF) : isAtEnd s = false := by
  unfold check at h
  unfold isAtEnd
  rw [beq_iff_eq] at h
  rw [h]
  cases t <;> simp_all

/-- A non-EOF `peek` is an actual member of the token list. -/
theorem peek_mem (s : ParserState) (h : (peek s).type ≠ .EOF) :
    peek s ∈ s.tokens := by
  unfold peek at *
  by_cases hlt : s.current < s.tokens.length
  · rw [List.getD_eq_getElem s.tokens eofToken hlt] at *
    exact List.getElem_mem hlt
  · exfalso
    apply h
    rw [List.getD_eq_default s.tokens eofToken (by omega)]
    rfl

theorem parseInstructionCall_tokens (s : ParserState) :
    (parseInstructionCall s).2.tokens = s.tokens := by
  unfold parseInstructionCall advance pushDiag
  dsimp only
  repeat' split
  all_goals rfl

theorem parseInstructionCall_current (s : ParserState) :
    s.current ≤ (parseInstructionCall s).2.current := by
  unfold parseInstructionCall advance pushDiag
  dsimp only
  repeat' split
  all_goals (try dsimp only)
  all_goals omega

theorem parseInstructionCall_progress (s : ParserState) (h : isAtEnd s = false) :
    s.current < (parseInstructionCall s).2.current := by
  unfold parseInstructionCall advance pushDiag
  dsimp only
  rw [h]
  repeat' split
  all_goals first
    | (dsimp only; omega)
    | simp_all

end Parser

namespace Parser

theorem check_lt_length (s : ParserState) (t : TokenType)
    (h : check s t = true) (ht : t ≠ .EOF) : s.current < s.tokens.length := by
  by_contra hge
  unfold check peek at h
  rw [List.getD_eq_default s.tokens eofToken (by omega)] at h
  rw [beq_iff_eq] at h
  exact ht h.symm

theorem peek_ne_EOF_lt (s : ParserState) (h : (peek s).type ≠ .EOF) :
    s.current < s.tokens.length := by
  by_contra hge
  apply h
  unfold peek
  rw [List.getD_eq_default s.tokens eofToken (by omega)]
  rfl

theorem check_EOF_false_ne (s : ParserState) (h : check s .EOF = false) :
    (peek s).type ≠ .EOF := by
  intro he
  unfold check at h
  rw [he] at h
  simp at h

theorem step_advance (s : ParserState) (t : TokenType)
    (h : check s t = true) (ht : t ≠ .EOF) :
    (advance s).2.current = s.current + 1 ∧ s.current < s.tokens.length ∧
    (advance s).2.tokens = s.tokens :=
  ⟨advance_current_of_not_atEnd s (check_not_atEnd s t h ht),
   check_lt_length s t h ht, advance_tokens s⟩

theorem structuralMsg_progStart : structuralMsg (missingProgramStartMsg) :=
  Or.inl rfl

theorem structuralMsg_execStart : structuralMsg (missingExecutionStartMsg) :=
  Or.inr (Or.inl rfl)

theorem structuralMsg_execEnd : structuralMsg (missingExecutionEndMsg) :=
  Or.inr (Or.inr (Or.inl rfl))

theorem structuralMsg_progEnd : structuralMsg (missingProgramEndMsg) :=
  Or.inr (Or.inr (Or.inr (Or.inl rfl)))

theorem structuralMsg_begin : structuralMsg ("Expected BEGIN") :=
  Or.inr (Or.inr (Or.inr (Or.inr (Or.inl rfl))))

theorem structuralMsg_unmatched (l : Nat) : structuralMsg (unmatchedBeginMsg l) :=
  Or.inr (Or.inr (Or.inr (Or.inr (Or.inr (Or.inl ⟨l, rfl⟩)))))

theorem structuralMsg_unknownCond (n : String) (l : Nat) : structuralMsg (unknownConditionMsg n l) :=
  Or.inr (Or.inr (Or.inr (Or.inr (Or.inr (Or.inr (Or.inl ⟨n, l, rfl⟩))))))

theorem structuralMsg_thenKw : structuralMsg ("Expected THEN after condition") :=
  Or.inr (Or.inr (Or.inr (Or.inr (Or.inr (Or.inr (Or.inr (Or.inl rfl)))))))

theorem structuralMsg_doKw : structuralMsg ("Expected DO after condition") :=
  Or.inr (Or.inr (Or.inr (Or.inr (Or.inr (Or.inr (Or.inr (Or.inr (Or.inl rfl))))))))

theorem structuralMsg_iterCount (l : Nat) : structuralMsg (invalidIterateCountMsg l) :=
  Or.inr (Or.inr (Or.inr (Or.inr (Or.inr (Or.inr (Or.inr (Or.inr (Or.inr (Or.inl ⟨l, rfl⟩)))))))))

theorem structuralMsg_timesKw : structuralMsg ("Expected TIMES after number") :=
  Or.inr (Or.inr (Or.inr (Or.inr (Or.inr (Or.inr (Or.inr (Or.inr (Or.inr (Or.inr (Or.inl rfl))))))))))

theorem structuralMsg_defName : structuralMsg ("Expected instruction name after DEFINE-NEW-INSTRUCTION") :=
  Or.inr (Or.inr (Or.inr (Or.inr (Or.inr (Or.inr (Or.inr (Or.inr (Or.inr (Or.inr (Or.inr (Or.inl rfl)))))))))))

theorem structuralMsg_asKw : structuralMsg ("Expected AS after instruction name") :=
  Or.inr (Or.inr (Or.inr (Or.inr (Or.inr (Or.inr (Or.inr (Or.inr (Or.inr (Or.inr (Or.inr (Or.inr (rfl))))))))))))

theorem diagDelta_refl (s : ParserState) : diagDelta s s :=
  ⟨[], by simp, by simp⟩

theorem diagDelta_congr {s s1 t t1 : ParserState}
    (hl : s.diagnostics = s1.diagnostics) (hr : t.diagnostics = t1.diagnostics)
    (h : diagDelta s1 t1) : diagDelta s t := by
  obtain ⟨ds, h1, h2⟩ := h
  exact ⟨ds, by rw [hr, h1, hl], h2⟩

theorem diagDelta_trans {s t u : ParserState}
    (h1 : diagDelta s t) (h2 : diagDelta t u) : diagDelta s u := by
  obtain ⟨ds1, e1, m1⟩ := h1
  obtain ⟨ds2, e2, m2⟩ := h2
  refine ⟨ds1 ++ ds2, ?_, ?_⟩
  · rw [e2, e1, List.append_assoc]
  · intro d hd
    rw [List.mem_append] at hd
    cases hd with
    | inl h => exact m1 d h
    | inr h => exact m2 d h

theorem diagDelta_push {s t : ParserState} (d : Diagnostic)
    (h : diagDelta s t) (hm : subRecovMsg d.message) :
    diagDelta s (pushDiag t d) := by
  obtain ⟨ds, e, m⟩ := h
  refine ⟨ds ++ [d], ?_, ?_⟩
  · unfold pushDiag
    dsimp only
    rw [e, List.append_assoc]
  · intro x hx
    rw [List.mem_append, List.mem_singleton] at hx
    cases hx with
    | inl h => exact m x h
    | inr h => subst h; exact hm

theorem diagDelta_advance_right {s t : ParserState} (h : diagDelta s t) :
    diagDelta s (advance t).2 :=
  diagDelta_congr rfl (advance_diagnostics t) h

theorem diagDelta_advance_start (s : ParserState) : diagDelta s (advance s).2 :=
  diagDelta_advance_right (diagDelta_refl s)

theorem progDelta_refl (s : ParserState) : progDelta s s :=
  ⟨[], by simp, by simp⟩

theorem progDelta_congr {s s1 t t1 : ParserState}
    (hl : s.diagnostics = s1.diagnostics) (hr : t.diagnostics = t1.diagnostics)
    (h : progDelta s1 t1) : progDelta s t := by
  obtain ⟨ds, h1, h2⟩ := h
  exact ⟨ds, by rw [hr, h1, hl], h2⟩

theorem progDelta_trans {s t u : ParserState}
    (h1 : progDelta s t) (h2 : progDelta t u) : progDelta s u := by
  obtain ⟨ds1, e1, m1⟩ := h1
  obtain ⟨ds2, e2, m2⟩ := h2
  refine ⟨ds1 ++ ds2, ?_, ?_⟩
  · rw [e2, e1, List.append_assoc]
  · intro d hd
    rw [List.mem_append] at hd
    cases hd with
    | inl h => exact m1 d h
    | inr h => exact m2 d h

theorem progDelta_push {s t : ParserState} (d : Diagnostic)
    (h : progDelta s t) (hm : recoverableMsg d.message) :
    progDelta s (pushDiag t d) := by
  obtain ⟨ds, e, m⟩ := h
  refine ⟨ds ++ [d], ?_, ?_⟩
  · unfold pushDiag
    dsimp only
    rw [e, List.append_assoc]
  · intro x hx
    rw [List.mem_append, List.mem_singleton] at hx
    cases hx with
    | inl h => exact m x h
    | inr h => subst h; exact hm

theorem progDelta_advance_right {s t : ParserState} (h : progDelta s t) :
    progDelta s (advance t).2 :=
  progDelta_congr rfl (advance_diagnostics t) h

theorem diagDelta_prog {s t : ParserState} (h : diagDelta s t) : progDelta s t := by
  obtain ⟨ds, e, m⟩ := h
  exact ⟨ds, e, fun d hd => Or.inl (m d hd)⟩

theorem diagDelta_setCI {s t : ParserState} (ci : List String) (h : diagDelta s t) :
    diagDelta s ⟨t.tokens, t.current, t.diagnostics, ci⟩ := by
  obtain ⟨ds, e, m⟩ := h
  exact ⟨ds, e, m⟩

theorem TokensCondSound_of_eq {s1 s : ParserState} (h : s1.tokens = s.tokens)
    (hs : TokensCondSound s) : TokensCondSound s1 := by
  unfold TokensCondSound
  rw [h]
  exact hs

theorem check_type_eq (s : ParserState) (t : TokenType) (h : check s t = true) :
    (peek s).type = t := by
  unfold check at h
  exact beq_iff_eq.mp h

theorem advance_fst_of_not_atEnd (s : ParserState) (h : isAtEnd s = false) :
    (advance s).1 = peek s := by
  unfold advance peek
  rw [h]
  rfl

theorem parseInstructionCall_diagDelta (s : ParserState) :
    diagDelta s (parseInstructionCall s).2 := by
  unfold parseInstructionCall
  dsimp only
  split
  · split
    · exact diagDelta_push _ (diagDelta_push _ (diagDelta_advance_start s)
        (Or.inl ⟨_, _, rfl⟩)) (Or.inr ⟨_, rfl⟩)
    · split
      · exact diagDelta_advance_right (diagDelta_push _ (diagDelta_advance_start s)
          (Or.inl ⟨_, _, rfl⟩))
      · exact diagDelta_push _ (diagDelta_advance_start s) (Or.inl ⟨_, _, rfl⟩)
  · split
    · exact diagDelta_push _ (diagDelta_advance_start s) (Or.inr ⟨_, rfl⟩)
    · split
      · exact diagDelta_advance_right (diagDelta_advance_start s)
      · exact diagDelta_advance_start s

theorem parser_fuel_spec : ∀ fuel : Nat,
    (∀ s, 3 * remainingTokens s + 1 ≤ fuel →
      parseIf fuel s ≠ .fuelOut ∧
      (∀ v s1, parseIf fuel s = .ok v s1 →
        s1.tokens = s.tokens ∧ s.current < s1.current)) ∧
    (∀ s, 3 * remainingTokens s + 1 ≤ fuel →
      parseWhile fuel s ≠ .fuelOut ∧
      (∀ v s1, parseWhile fuel s = .ok v s1 →
        s1.tokens = s.tokens ∧ s.current < s1.current)) ∧
    (∀ s, 3 * remainingTokens s + 1 ≤ fuel →
      parseIterate fuel s ≠ .fuelOut ∧
      (∀ v s1, parseIterate fuel s = .ok v s1 →
        s1.tokens = s.tokens ∧ s.current < s1.current)) ∧
    (∀ s, 3 * remainingTokens s + 1 ≤ fuel →
      parseBlock fuel s ≠ .fuelOut ∧
      (∀ v s1, parseBlock fuel s = .ok v s1 →
        s1.tokens = s.tokens ∧ s.current < s1.current)) ∧
    (∀ s, 3 * remainingTokens s + 3 ≤ fuel →
      parseBlockStmts fuel s ≠ .fuelOut ∧
      (∀ v s1, parseBlockStmts fuel s = .ok v s1 →
        s1.tokens = s.tokens ∧ s.current ≤ s1.current)) ∧
    (∀ s, 3 * remainingTokens s + 2 ≤ fuel →
      parseStatement fuel s ≠ .fuelOut ∧
      (∀ v s1, parseStatement fuel s = .ok v s1 →
        s1.tokens = s.tokens ∧ s.current ≤ s1.current ∧
        ((peek s).type ≠ .EOF → s.current < s1.current))) ∧
    (∀ s, 3 * remainingTokens s + 1 ≤ fuel →
      parseDefineInstruction fuel s ≠ .fuelOut ∧
      (∀ v s1, parseDefineInstruction fuel s = .ok v s1 →
        s1.tokens = s.tokens ∧ s.current < s1.current)) ∧
    (∀ s, 3 * remainingTokens s + 3 ≤ fuel →
      parseDefsLoop fuel s ≠ .fuelOut ∧
      (∀ v s1, parseDefsLoop fuel s = .ok v s1 →
        s1.tokens = s.tokens ∧ s.current ≤ s1.current)) ∧
    (∀ s, 3 * remainingTokens s + 3 ≤ fuel →
      parseExecStmts fuel s ≠ .fuelOut ∧
      (∀ v s1, parseExecStmts fuel s = .ok v s1 →
        s1.tokens = s.tokens ∧ s.current ≤ s1.current)) ∧
    (∀ s, 3 * remainingTokens s + 2 ≤ fuel →
      parseProgram fuel s ≠ .fuelOut ∧
      (∀ v s1, parseProgram fuel s = .ok v s1 →
        s1.tokens = s.tokens ∧ s.current ≤ s1.current)) := by
  intro fuel
  induction fuel with
  | zero =>
    refine ⟨?_, ?_, ?_, ?_, ?_, ?_, ?_, ?_, ?_, ?_⟩ <;>
      (intro s hb; exfalso; omega)
  | succ n ih =>
    obtain ⟨ihIf, ihWhile, ihIter, ihBlock, ihBS, ihStmt, ihDef, ihDL, ihES, ihProg⟩ := ih
    refine ⟨?_, ?_, ?_, ?_, ?_, ?_, ?_, ?_, ?_, ?_⟩
    · -- parseIf
      intro s hb
      suffices hgen : ∀ out, parseIf (n+1) s = out →
          (out ≠ .fuelOut ∧ ∀ v s1, out = .ok v s1 →
            s1.tokens = s.tokens ∧ s.current < s1.current) from hgen _ rfl
      intro out hout
      rw [parseIf] at hout
      try dsimp only at hout
      split at hout
      · subst hout
        exact ⟨(fun h => nomatch h), (fun v s1 h => nomatch h)⟩
      · rename_i hc1
        simp at hc1
        have hl1 : (advance s).2.tokens.length = s.tokens.length := by
          rw [advance_tokens]
        have ha1 := advance_current s
        have hlt1 := check_lt_length _ _ hc1 (by decide)
        have ha2 := advance_current_of_not_atEnd _ (check_not_atEnd _ _ hc1 (by decide))
        have hl2 : (advance (advance s).2).2.tokens.length = s.tokens.length := by
          rw [advance_tokens, advance_tokens]
        split at hout
        · subst hout
          exact ⟨(fun h => nomatch h), (fun v s1 h => nomatch h)⟩
        · rename_i hc2
          simp at hc2
          have hlt2 := check_lt_length _ _ hc2 (by decide)
          have ha3 := advance_current_of_not_atEnd _ (check_not_atEnd _ _ hc2 (by decide))
          have hl3 : (advance (advance (advance s).2).2).2.tokens.length = s.tokens.length := by
            rw [advance_tokens, advance_tokens, advance_tokens]
          have hbound : 3 * remainingTokens (advance (advance (advance s).2).2).2 + 1 ≤ n := by
            unfold remainingTokens at hb ⊢
            omega
          split at hout
          · rename_i heq
            exact absurd heq ((ihBlock _ hbound).1)
          · subst hout
            exact ⟨(fun h => nomatch h), (fun v s1 h => nomatch h)⟩
          · rename_i thenB s1 heq
            have hih := (ihBlock _ hbound).2 _ _ heq
            have hls1 : s1.tokens.length = s.tokens.length := by
              rw [hih.1]; exact hl3
            split at hout
            · rename_i hce
              have hlt4 := check_lt_length _ _ hce (by decide)
              have ha4 := advance_current_of_not_atEnd _ (check_not_atEnd _ _ hce (by decide))
              have hl4 : (advance s1).2.tokens.length = s.tokens.length := by
                rw [advance_tokens]; exact hls1
              have hbound2 : 3 * remainingTokens (advance s1).2 + 1 ≤ n := by
                unfold remainingTokens at hb ⊢
                have := hih.2
                omega
              split at hout
              · rename_i heq2
                exact absurd heq2 ((ihBlock _ hbound2).1)
              · subst hout
                exact ⟨(fun h => nomatch h), (fun v s1 h => nomatch h)⟩
              · rename_i elseB s3 heq2
                have hih2 := (ihBlock _ hbound2).2 _ _ heq2
                subst hout
                refine ⟨(fun h => nomatch h), (fun v s1h h => ?_)⟩
                injection h with h1 h2
                subst h2
                constructor
                · rw [hih2.1, advance_tokens, hih.1, advance_tokens, advance_tokens,
                    advance_tokens]
                · have := hih2.2
                  have := hih.2
                  omega
            · subst hout
              refine ⟨(fun h => nomatch h), (fun v s1h h => ?_)⟩
              injection h with h1 h2
              subst h2
              constructor
              · rw [hih.1, advance_tokens, advance_tokens, advance_tokens]
              · have := hih.2
                omega
    · -- parseWhile
      intro s hb
      suffices hgen : ∀ out, parseWhile (n+1) s = out →
          (out ≠ .fuelOut ∧ ∀ v s1, out = .ok v s1 →
            s1.tokens = s.tokens ∧ s.current < s1.current) from hgen _ rfl
      intro out hout
      rw [parseWhile] at hout
      try dsimp only at hout
      split at hout
      · subst hout
        exact ⟨(fun h => nomatch h), (fun v s1 h => nomatch h)⟩
      · rename_i hc1
        simp at hc1
        have hl1 : (advance s).2.tokens.length = s.tokens.length := by
          rw [advance_tokens]
        have ha1 := advance_current s
        have hlt1 := check_lt_length _ _ hc1 (by decide)
        have ha2 := advance_current_of_not_atEnd _ (check_not_atEnd _ _ hc1 (by decide))
        have hl2 : (advance (advance s).2).2.tokens.length = s.tokens.length := by
          rw [advance_tokens, advance_tokens]
        split at hout
        · subst hout
          exact ⟨(fun h => nomatch h), (fun v s1 h => nomatch h)⟩
        · rename_i hc2
          simp at hc2
          have hlt2 := check_lt_length _ _ hc2 (by decide)
          have ha3 := advance_current_of_not_atEnd _ (check_not_atEnd _ _ hc2 (by decide))
          have hl3 : (advance (advance (advance s).2).2).2.tokens.length = s.tokens.length := by
            rw [advance_tokens, advance_tokens, advance_tokens]
          have hbound : 3 * remainingTokens (advance (advance (advance s).2).2).2 + 1 ≤ n := by
            unfold remainingTokens at hb ⊢
            omega
          split at hout
          · rename_i heq
            exact absurd heq ((ihBlock _ hbound).1)
          · subst hout
            exact ⟨(fun h => nomatch h), (fun v s1 h => nomatch h)⟩
          · rename_i body s1 heq
            have hih := (ihBlock _ hbound).2 _ _ heq
            subst hout
            refine ⟨(fun h => nomatch h), (fun v s1h h => ?_)⟩
            injection h with h1 h2
            subst h2
            constructor
            · rw [hih.1, advance_tokens, advance_tokens, advance_tokens]
            · have := hih.2
              omega
    · -- parseIterate
      intro s hb
      suffices hgen : ∀ out, parseIterate (n+1) s = out →
          (out ≠ .fuelOut ∧ ∀ v s1, out = .ok v s1 →
            s1.tokens = s.tokens ∧ s.current < s1.current) from hgen _ rfl
      intro out hout
      rw [parseIterate] at hout
      try dsimp only at hout
      split at hout
      · subst hout
        exact ⟨(fun h => nomatch h), (fun v s1 h => nomatch h)⟩
      · rename_i hc1
        simp at hc1
        have hl1 : (advance s).2.tokens.length = s.tokens.length := by
          rw [advance_tokens]
        have ha1 := advance_current s
        have hlt1 := check_lt_length _ _ hc1 (by decide)
        have ha2 := advance_current_of_not_atEnd _ (check_not_atEnd _ _ hc1 (by decide))
        have hl2 : (advance (advance s).2).2.tokens.length = s.tokens.length := by
          rw [advance_tokens, advance_tokens]
        split at hout
        · subst hout
          exact ⟨(fun h => nomatch h), (fun v s1 h => nomatch h)⟩
        · rename_i hc2
          simp at hc2
          have hlt2 := check_lt_length _ _ hc2 (by decide)
          have ha3 := advance_current_of_not_atEnd _ (check_not_atEnd _ _ hc2 (by decide))
          have hl3 : (advance (advance (advance s).2).2).2.tokens.length = s.tokens.length := by
            rw [advance_tokens, advance_tokens, advance_tokens]
          have hbound : 3 * remainingTokens (advance (advance (advance s).2).2).2 + 1 ≤ n := by
            unfold remainingTokens at hb ⊢
            omega
          split at hout
          · rename_i heq
            exact absurd heq ((ihBlock _ hbound).1)
          · subst hout
            exact ⟨(fun h => nomatch h), (fun v s1 h => nomatch h)⟩
          · rename_i body s1 heq
            have hih := (ihBlock _ hbound).2 _ _ heq
            subst hout
            refine ⟨(fun h => nomatch h), (fun v s1h h => ?_)⟩
            injection h with h1 h2
            subst h2
            constructor
            · rw [hih.1, advance_tokens, advance_tokens, advance_tokens]
            · have := hih.2
              omega
    · -- parseBlock
      intro s hb
      suffices hgen : ∀ out, parseBlock (n+1) s = out →
          (out ≠ .fuelOut ∧ ∀ v s1, out = .ok v s1 →
            s1.tokens = s.tokens ∧ s.current < s1.current) from hgen _ rfl
      intro out hout
      rw [parseBlock] at hout
      try dsimp only at hout
      split at hout
      · subst hout
        exact ⟨(fun h => nomatch h), (fun v s1 h => nomatch h)⟩
      · rename_i hc1
        simp at hc1
        have hlt1 := check_lt_length _ _ hc1 (by decide)
        have ha1 := advance_current_of_not_atEnd _ (check_not_atEnd _ _ hc1 (by decide))
        have hl1 : (advance s).2.tokens.length = s.tokens.length := by
          rw [advance_tokens]
        have hbound : 3 * remainingTokens (advance s).2 + 3 ≤ n := by
          unfold remainingTokens at hb ⊢
          omega
        split at hout
        · rename_i heq
          exact absurd heq ((ihBS _ hbound).1)
        · subst hout
          exact ⟨(fun h => nomatch h), (fun v s1 h => nomatch h)⟩
        · rename_i stmts s1 heq
          have hih := (ihBS _ hbound).2 _ _ heq
          split at hout
          · subst hout
            exact ⟨(fun h => nomatch h), (fun v s1 h => nomatch h)⟩
          · rename_i hc2
            simp at hc2
            subst hout
            refine ⟨(fun h => nomatch h), (fun v s1h h => ?_)⟩
            injection h with h1 h2
            subst h2
            constructor
            · rw [advance_tokens, hih.1, advance_tokens]
            · have := hih.2
              have ha2 := advance_current s1
              omega
    · -- parseBlockStmts
      intro s hb
      suffices hgen : ∀ out, parseBlockStmts (n+1) s = out →
          (out ≠ .fuelOut ∧ ∀ v s1, out = .ok v s1 →
            s1.tokens = s.tokens ∧ s.current ≤ s1.current) from hgen _ rfl
      intro out hout
      rw [parseBlockStmts] at hout
      try dsimp only at hout
      split at hout
      · rename_i hcond
        simp at hcond
        have hne : (peek s).type ≠ .EOF := check_EOF_false_ne _ hcond.2
        have hlt := peek_ne_EOF_lt _ hne
        have hb1 : 3 * remainingTokens s + 2 ≤ n := by
          unfold remainingTokens at hb ⊢
          omega
        split at hout
        · rename_i heq
          exact absurd heq ((ihStmt _ hb1).1)
        · subst hout
          exact ⟨(fun h => nomatch h), (fun v s1 h => nomatch h)⟩
        · rename_i stmt s1 heq
          have hih := (ihStmt _ hb1).2 _ _ heq
          have hstrict := hih.2.2 hne
          have hl1 : s1.tokens.length = s.tokens.length := by rw [hih.1]
          have hb2 : 3 * remainingTokens s1 + 3 ≤ n := by
            unfold remainingTokens at hb ⊢
            omega
          split at hout
          · rename_i heq2
            exact absurd heq2 ((ihBS _ hb2).1)
          · subst hout
            exact ⟨(fun h => nomatch h), (fun v s1 h => nomatch h)⟩
          · rename_i stmts s2 heq2
            have hih2 := (ihBS _ hb2).2 _ _ heq2
            subst hout
            refine ⟨(fun h => nomatch h), (fun v s1h h => ?_)⟩
            injection h with h1 h2
            subst h2
            constructor
            · rw [hih2.1, hih.1]
            · have := hih2.2
              omega
      · subst hout
        refine ⟨(fun h => nomatch h), (fun v s1h h => ?_)⟩
        injection h with h1 h2
        subst h2
        exact ⟨rfl, le_refl _⟩
    · -- parseStatement
      intro s hb
      suffices hgen : ∀ out, parseStatement (n+1) s = out →
          (out ≠ .fuelOut ∧ ∀ v s1, out = .ok v s1 →
            s1.tokens = s.tokens ∧ s.current ≤ s1.current ∧
            ((peek s).type ≠ .EOF → s.current < s1.current)) from hgen _ rfl
      intro out hout
      rw [parseStatement] at hout
      try dsimp only at hout
      have hb1 : 3 * remainingTokens s + 1 ≤ n := by omega
      split at hout
      · refine ⟨(fun h => (ihIf _ hb1).1 (hout.trans h)), (fun v s1 h => ?_)⟩
        have hih := (ihIf _ hb1).2 _ _ (hout.trans h)
        exact ⟨hih.1, le_of_lt hih.2, fun _ => hih.2⟩
      · refine ⟨(fun h => (ihWhile _ hb1).1 (hout.trans h)), (fun v s1 h => ?_)⟩
        have hih := (ihWhile _ hb1).2 _ _ (hout.trans h)
        exact ⟨hih.1, le_of_lt hih.2, fun _ => hih.2⟩
      · refine ⟨(fun h => (ihIter _ hb1).1 (hout.trans h)), (fun v s1 h => ?_)⟩
        have hih := (ihIter _ hb1).2 _ _ (hout.trans h)
        exact ⟨hih.1, le_of_lt hih.2, fun _ => hih.2⟩
      · split at hout
        · rename_i stmts s1 heq
          subst hout
          refine ⟨(fun h => nomatch h), (fun v s1h h => ?_)⟩
          injection h with h1 h2
          subst h2
          have hih := (ihBlock _ hb1).2 _ _ heq
          exact ⟨hih.1, le_of_lt hih.2, fun _ => hih.2⟩
        · subst hout
          exact ⟨(fun h => nomatch h), (fun v s1 h => nomatch h)⟩
        · rename_i heq
          exact absurd heq ((ihBlock _ hb1).1)
      · subst hout
        refine ⟨(fun h => nomatch h), (fun v s1h h => ?_)⟩
        injection h with h1 h2
        subst h2
        refine ⟨parseInstructionCall_tokens s, parseInstructionCall_current s, fun hne => ?_⟩
        apply parseInstructionCall_progress
        unfold isAtEnd
        simp [hne]
    · -- parseDefineInstruction
      intro s hb
      suffices hgen : ∀ out, parseDefineInstruction (n+1) s = out →
          (out ≠ .fuelOut ∧ ∀ v s1, out = .ok v s1 →
            s1.tokens = s.tokens ∧ s.current < s1.current) from hgen _ rfl
      intro out hout
      rw [parseDefineInstruction] at hout
      try dsimp only at hout
      split at hout
      · subst hout
        exact ⟨(fun h => nomatch h), (fun v s1 h => nomatch h)⟩
      · rename_i hc1
        simp at hc1
        have hl1 : (advance s).2.tokens.length = s.tokens.length := by
          rw [advance_tokens]
        have ha1 := advance_current s
        have hlt1 := check_lt_length _ _ hc1 (by decide)
        have ha2 := advance_current_of_not_atEnd _ (check_not_atEnd _ _ hc1 (by decide))
        have hl2 : (advance (advance s).2).2.tokens.length = s.tokens.length := by
          rw [advance_tokens, advance_tokens]
        unfold remainingTokens at hb
        split at hout
        · split at hout
          · subst hout
            exact ⟨(fun h => nomatch h), (fun v s1 h => nomatch h)⟩
          · rename_i hc2
            simp at hc2
            have hlt2 := check_lt_length _ _ hc2 (by decide)
            have ha3 := advance_current_of_not_atEnd _ (check_not_atEnd _ _ hc2 (by decide))
            try dsimp only at hlt2 ha3
            split at hout
            · rename_i heq
              refine absurd heq ((ihBlock _ ?_).1)
              unfold remainingTokens
              rw [advance_tokens]
              try dsimp only
              omega
            · subst hout
              exact ⟨(fun h => nomatch h), (fun v s1 h => nomatch h)⟩
            · rename_i body s1 heq
              have hih := (ihBlock _ (by
                unfold remainingTokens
                rw [advance_tokens]
                try dsimp only
                omega)).2 _ _ heq
              subst hout
              refine ⟨(fun h => nomatch h), (fun v s1h h => ?_)⟩
              injection h with h1 h2
              subst h2
              constructor
              · rw [hih.1, advance_tokens]
                try dsimp only
                rw [advance_tokens, advance_tokens]
              · have := hih.2
                omega
        · split at hout
          · subst hout
            exact ⟨(fun h => nomatch h), (fun v s1 h => nomatch h)⟩
          · rename_i hc2
            simp at hc2
            have hlt2 := check_lt_length _ _ hc2 (by decide)
            have ha3 := advance_current_of_not_atEnd _ (check_not_atEnd _ _ hc2 (by decide))
            try dsimp only at hlt2 ha3
            split at hout
            · rename_i heq
              refine absurd heq ((ihBlock _ ?_).1)
              unfold remainingTokens
              rw [advance_tokens]
              try dsimp only
              omega
            · subst hout
              exact ⟨(fun h => nomatch h), (fun v s1 h => nomatch h)⟩
            · rename_i body s1 heq
              have hih := (ihBlock _ (by
                unfold remainingTokens
                rw [advance_tokens]
                try dsimp only
                omega)).2 _ _ heq
              subst hout
              refine ⟨(fun h => nomatch h), (fun v s1h h => ?_)⟩
              injection h with h1 h2
              subst h2
              constructor
              · rw [hih.1, advance_tokens]
                try dsimp only
                rw [advance_tokens, advance_tokens]
              · have := hih.2
                omega
    · -- parseDefsLoop
      intro s hb
      suffices hgen : ∀ out, parseDefsLoop (n+1) s = out →
          (out ≠ .fuelOut ∧ ∀ v s1, out = .ok v s1 →
            s1.tokens = s.tokens ∧ s.current ≤ s1.current) from hgen _ rfl
      intro out hout
      rw [parseDefsLoop] at hout
      try dsimp only at hout
      unfold remainingTokens at hb
      split at hout
      · rename_i hc
        have hlt := check_lt_length _ _ hc (by decide)
        have hb1 : 3 * remainingTokens s + 1 ≤ n := by
          unfold remainingTokens
          omega
        split at hout
        · rename_i heq
          exact absurd heq ((ihDef _ hb1).1)
        · subst hout
          exact ⟨(fun h => nomatch h), (fun v s1 h => nomatch h)⟩
        · rename_i d s1 heq
          have hih := (ihDef _ hb1).2 _ _ heq
          have hl1 : s1.tokens.length = s.tokens.length := by rw [hih.1]
          have hb2 : 3 * remainingTokens s1 + 3 ≤ n := by
            unfold remainingTokens
            have := hih.2
            omega
          split at hout
          · rename_i heq2
            exact absurd heq2 ((ihDL _ hb2).1)
          · subst hout
            exact ⟨(fun h => nomatch h), (fun v s1 h => nomatch h)⟩
          · rename_i ds s2 heq2
            have hih2 := (ihDL _ hb2).2 _ _ heq2
            subst hout
            refine ⟨(fun h => nomatch h), (fun v s1h h => ?_)⟩
            injection h with h1 h2
            subst h2
            constructor
            · rw [hih2.1, hih.1]
            · have := hih2.2
              have := hih.2
              omega
      · subst hout
        refine ⟨(fun h => nomatch h), (fun v s1h h => ?_)⟩
        injection h with h1 h2
        subst h2
        exact ⟨rfl, le_refl _⟩
    · -- parseExecStmts
      intro s hb
      suffices hgen : ∀ out, parseExecStmts (n+1) s = out →
          (out ≠ .fuelOut ∧ ∀ v s1, out = .ok v s1 →
            s1.tokens = s.tokens ∧ s.current ≤ s1.current) from hgen _ rfl
      intro out hout
      rw [parseExecStmts] at hout
      try dsimp only at hout
      split at hout
      · rename_i hcond
        simp at hcond
        have hne : (peek s).type ≠ .EOF := check_EOF_false_ne _ hcond.2
        have hlt := peek_ne_EOF_lt _ hne
        have hb1 : 3 * remainingTokens s + 2 ≤ n := by
          unfold remainingTokens at hb ⊢
          omega
        split at hout
        · rename_i heq
          exact absurd heq ((ihStmt _ hb1).1)
        · subst hout
          exact ⟨(fun h => nomatch h), (fun v s1 h => nomatch h)⟩
        · rename_i stmt s1 heq
          have hih := (ihStmt _ hb1).2 _ _ heq
          have hstrict := hih.2.2 hne
          have hl1 : s1.tokens.length = s.tokens.length := by rw [hih.1]
          have hb2 : 3 * remainingTokens s1 + 3 ≤ n := by
            unfold remainingTokens at hb ⊢
            omega
          split at hout
          · rename_i heq2
            exact absurd heq2 ((ihES _ hb2).1)
          · subst hout
            exact ⟨(fun h => nomatch h), (fun v s1 h => nomatch h)⟩
          · rename_i stmts s2 heq2
            have hih2 := (ihES _ hb2).2 _ _ heq2
            subst hout
            refine ⟨(fun h => nomatch h), (fun v s1h h => ?_)⟩
            injection h with h1 h2
            subst h2
            constructor
            · rw [hih2.1, hih.1]
            · have := hih2.2
              omega
      · subst hout
        refine ⟨(fun h => nomatch h), (fun v s1h h => ?_)⟩
        injection h with h1 h2
        subst h2
        exact ⟨rfl, le_refl _⟩
    · -- parseProgram
      intro s hb
      suffices hgen : ∀ out, parseProgram (n+1) s = out →
          (out ≠ .fuelOut ∧ ∀ v s1, out = .ok v s1 →
            s1.tokens = s.tokens ∧ s.current ≤ s1.current) from hgen _ rfl
      intro out hout
      rw [parseProgram] at hout
      try dsimp only at hout
      unfold remainingTokens at hb
      split at hout
      · subst hout
        exact ⟨(fun h => nomatch h), (fun v s1 h => nomatch h)⟩
      · rename_i hc1
        simp at hc1
        have hlt1 := check_lt_length _ _ hc1 (by decide)
        have ha1 := advance_current_of_not_atEnd _ (check_not_atEnd _ _ hc1 (by decide))
        have hl1 : (advance s).2.tokens.length = s.tokens.length := by
          simp only [advance_tokens]
        have hb1 : 3 * remainingTokens (advance s).2 + 3 ≤ n := by
          unfold remainingTokens
          omega
        split at hout
        · rename_i heq
          exact absurd heq ((ihDL _ hb1).1)
        · subst hout
          exact ⟨(fun h => nomatch h), (fun v s1 h => nomatch h)⟩
        · rename_i definitions s1 heq
          have hih1 := (ihDL _ hb1).2 _ _ heq
          have hls1 : s1.tokens.length = s.tokens.length := by
            rw [hih1.1]
            exact hl1
          split at hout
          · subst hout
            exact ⟨(fun h => nomatch h), (fun v s1 h => nomatch h)⟩
          · rename_i hc2
            simp at hc2
            have hlt2 := check_lt_length _ _ hc2 (by decide)
            have ha2 := advance_current_of_not_atEnd _ (check_not_atEnd _ _ hc2 (by decide))
            have hl2 : (advance s1).2.tokens.length = s.tokens.length := by
              simp only [advance_tokens]
              exact hls1
            have hb2 : 3 * remainingTokens (advance s1).2 + 3 ≤ n := by
              unfold remainingTokens
              have := hih1.2
              omega
            split at hout
            · rename_i heq2
              exact absurd heq2 ((ihES _ hb2).1)
            · subst hout
              exact ⟨(fun h => nomatch h), (fun v s1 h => nomatch h)⟩
            · rename_i statements s3 heq2
              have hih2 := (ihES _ hb2).2 _ _ heq2
              have hls3 : s3.tokens.length = s.tokens.length := by
                rw [hih2.1]
                exact hl2
              split at hout
              · split at hout
                · subst hout
                  exact ⟨(fun h => nomatch h), (fun v s1 h => nomatch h)⟩
                · rename_i hc3
                  simp at hc3
                  have hlt3 := check_lt_length _ _ hc3 (by decide)
                  have ha4 := advance_current_of_not_atEnd _ (check_not_atEnd _ _ hc3 (by decide))
                  try simp only [pushDiag_current, pushDiag_tokens] at hlt3
                  try simp only [pushDiag_current, pushDiag_tokens] at ha4
                  split at hout
                  · subst hout
                    exact ⟨(fun h => nomatch h), (fun v s1 h => nomatch h)⟩
                  · rename_i hc4
                    simp at hc4
                    have hlt4 := check_lt_length _ _ hc4 (by decide)
                    have ha5 := advance_current_of_not_atEnd _ (check_not_atEnd _ _ hc4 (by decide))
                    subst hout
                    refine ⟨(fun h => nomatch h), (fun v s1h h => ?_)⟩
                    injection h with h1 h2
                    subst h2
                    constructor
                    · simp only [advance_tokens, pushDiag_tokens, hih2.1, hih1.1]
                    · omega
              · split at hout
                · subst hout
                  exact ⟨(fun h => nomatch h), (fun v s1 h => nomatch h)⟩
                · rename_i hc3
                  simp at hc3
                  have hlt3 := check_lt_length _ _ hc3 (by decide)
                  have ha4 := advance_current_of_not_atEnd _ (check_not_atEnd _ _ hc3 (by decide))
                  try simp only [pushDiag_current, pushDiag_tokens] at hlt3
                  try simp only [pushDiag_current, pushDiag_tokens] at ha4
                  split at hout
                  · subst hout
                    exact ⟨(fun h => nomatch h), (fun v s1 h => nomatch h)⟩
                  · rename_i hc4
                    simp at hc4
                    have hlt4 := check_lt_length _ _ hc4 (by decide)
                    have ha5 := advance_current_of_not_atEnd _ (check_not_atEnd _ _ hc4 (by decide))
                    subst hout
                    refine ⟨(fun h => nomatch h), (fun v s1h h => ?_)⟩
                    injection h with h1 h2
                    subst h2
                    constructor
                    · simp only [advance_tokens, pushDiag_tokens, hih2.1, hih1.1]
                    · omega
theorem parser_diag_spec : ∀ fuel : Nat,
    (∀ s out, parseIf fuel s = out →
      (∀ e s1, out = .err e s1 → structuralMsg e.message ∧ diagDelta s s1) ∧
      (∀ v s1, out = .ok v s1 → diagDelta s s1)) ∧
    (∀ s out, parseWhile fuel s = out →
      (∀ e s1, out = .err e s1 → structuralMsg e.message ∧ diagDelta s s1) ∧
      (∀ v s1, out = .ok v s1 → diagDelta s s1)) ∧
    (∀ s out, parseIterate fuel s = out →
      (∀ e s1, out = .err e s1 → structuralMsg e.message ∧ diagDelta s s1) ∧
      (∀ v s1, out = .ok v s1 → diagDelta s s1)) ∧
    (∀ s out, parseBlock fuel s = out →
      (∀ e s1, out = .err e s1 → structuralMsg e.message ∧ diagDelta s s1) ∧
      (∀ v s1, out = .ok v s1 → diagDelta s s1)) ∧
    (∀ s out, parseBlockStmts fuel s = out →
      (∀ e s1, out = .err e s1 → structuralMsg e.message ∧ diagDelta s s1) ∧
      (∀ v s1, out = .ok v s1 → diagDelta s s1)) ∧
    (∀ s out, parseStatement fuel s = out →
      (∀ e s1, out = .err e s1 → structuralMsg e.message ∧ diagDelta s s1) ∧
      (∀ v s1, out = .ok v s1 → diagDelta s s1)) ∧
    (∀ s out, parseDefineInstruction fuel s = out →
      (∀ e s1, out = .err e s1 → structuralMsg e.message ∧ diagDelta s s1) ∧
      (∀ v s1, out = .ok v s1 → diagDelta s s1)) ∧
    (∀ s out, parseDefsLoop fuel s = out →
      (∀ e s1, out = .err e s1 → structuralMsg e.message ∧ diagDelta s s1) ∧
      (∀ v s1, out = .ok v s1 → diagDelta s s1)) ∧
    (∀ s out, parseExecStmts fuel s = out →
      (∀ e s1, out = .err e s1 → structuralMsg e.message ∧ diagDelta s s1) ∧
      (∀ v s1, out = .ok v s1 → diagDelta s s1)) ∧
    (∀ s out, parseProgram fuel s = out →
      (∀ e s1, out = .err e s1 → structuralMsg e.message ∧ progDelta s s1) ∧
      (∀ v s1, out = .ok v s1 → progDelta s s1)) := by
  intro fuel
  induction fuel with
  | zero =>
    refine ⟨?_, ?_, ?_, ?_, ?_, ?_, ?_, ?_, ?_, ?_⟩
    · intro s out h
      rw [parseIf] at h
      subst h
      exact ⟨(fun e s1 hh => nomatch hh), (fun v s1 hh => nomatch hh)⟩
    · intro s out h
      rw [parseWhile] at h
      subst h
      exact ⟨(fun e s1 hh => nomatch hh), (fun v s1 hh => nomatch hh)⟩
    · intro s out h
      rw [parseIterate] at h
      subst h
      exact ⟨(fun e s1 hh => nomatch hh), (fun v s1 hh => nomatch hh)⟩
    · intro s out h
      rw [parseBlock] at h
      subst h
      exact ⟨(fun e s1 hh => nomatch hh), (fun v s1 hh => nomatch hh)⟩
    · intro s out h
      rw [parseBlockStmts] at h
      subst h
      exact ⟨(fun e s1 hh => nomatch hh), (fun v s1 hh => nomatch hh)⟩
    · intro s out h
      rw [parseStatement] at h
      subst h
      exact ⟨(fun e s1 hh => nomatch hh), (fun v s1 hh => nomatch hh)⟩
    · intro s out h
      rw [parseDefineInstruction] at h
      subst h
      exact ⟨(fun e s1 hh => nomatch hh), (fun v s1 hh => nomatch hh)⟩
    · intro s out h
      rw [parseDefsLoop] at h
      subst h
      exact ⟨(fun e s1 hh => nomatch hh), (fun v s1 hh => nomatch hh)⟩
    · intro s out h
      rw [parseExecStmts] at h
      subst h
      exact ⟨(fun e s1 hh => nomatch hh), (fun v s1 hh => nomatch hh)⟩
    · intro s out h
      rw [parseProgram] at h
      subst h
      exact ⟨(fun e s1 hh => nomatch hh), (fun v s1 hh => nomatch hh)⟩
  | succ n ih =>
    obtain ⟨ihIf, ihWhile, ihIter, ihBlock, ihBS, ihStmt, ihDef, ihDL, ihES, ihProg⟩ := ih
    refine ⟨?_, ?_, ?_, ?_, ?_, ?_, ?_, ?_, ?_, ?_⟩
    · intro s out hout
      rw [parseIf] at hout
      try dsimp only at hout
      split at hout
      · subst hout
        refine ⟨?_, (fun v s1 hh => nomatch hh)⟩
        intro e s1 hh
        injection hh with h1 h2
        subst h1
        subst h2
        exact ⟨structuralMsg_unknownCond _ _, diagDelta_advance_start s⟩
      · split at hout
        · subst hout
          refine ⟨?_, (fun v s1 hh => nomatch hh)⟩
          intro e s1 hh
          injection hh with h1 h2
          subst h1
          subst h2
          exact ⟨structuralMsg_thenKw, diagDelta_advance_right (diagDelta_advance_start s)⟩
        · split at hout
          · subst hout
            exact ⟨(fun e s1 hh => nomatch hh), (fun v s1 hh => nomatch hh)⟩
          · rename_i e1 s1 heq
            subst hout
            refine ⟨?_, (fun v s1h hh => nomatch hh)⟩
            intro e2 s2 hh
            injection hh with h1 h2
            subst h1
            subst h2
            have hih := (ihBlock _ _ heq).1 _ _ rfl
            exact ⟨hih.1, diagDelta_trans (diagDelta_advance_right (diagDelta_advance_right
              (diagDelta_advance_start s))) hih.2⟩
          · rename_i bodyV s1 heq
            have hd1 := diagDelta_trans (diagDelta_advance_right (diagDelta_advance_right
              (diagDelta_advance_start s))) ((ihBlock _ _ heq).2 _ _ rfl)
            split at hout
            · split at hout
              · subst hout
                exact ⟨(fun e s1h hh => nomatch hh), (fun v s1h hh => nomatch hh)⟩
              · rename_i e2 s3 heq2
                subst hout
                refine ⟨?_, (fun v s1h hh => nomatch hh)⟩
                intro e3 s4 hh
                injection hh with h1 h2
                subst h1
                subst h2
                have hih2 := (ihBlock _ _ heq2).1 _ _ rfl
                exact ⟨hih2.1, diagDelta_trans (diagDelta_advance_right hd1) hih2.2⟩
              · rename_i elseV s3 heq2
                subst hout
                refine ⟨(fun e s1h hh => nomatch hh), ?_⟩
                intro v s4 hh
                injection hh with h1 h2
                subst h2
                exact diagDelta_trans (diagDelta_advance_right hd1) ((ihBlock _ _ heq2).2 _ _ rfl)
            · subst hout
              refine ⟨(fun e s1h hh => nomatch hh), ?_⟩
              intro v s2 hh
              injection hh with h1 h2
              subst h2
              exact hd1
    · intro s out hout
      rw [parseWhile] at hout
      try dsimp only at hout
      split at hout
      · subst hout
        refine ⟨?_, (fun v s1 hh => nomatch hh)⟩
        intro e s1 hh
        injection hh with h1 h2
        subst h1
        subst h2
        exact ⟨structuralMsg_unknownCond _ _, diagDelta_advance_start s⟩
      · split at hout
        · subst hout
          refine ⟨?_, (fun v s1 hh => nomatch hh)⟩
          intro e s1 hh
          injection hh with h1 h2
          subst h1
          subst h2
          exact ⟨structuralMsg_doKw, diagDelta_advance_right (diagDelta_advance_start s)⟩
        · split at hout
          · subst hout
            exact ⟨(fun e s1 hh => nomatch hh), (fun v s1 hh => nomatch hh)⟩
          · rename_i e1 s1 heq
            subst hout
            refine ⟨?_, (fun v s1h hh => nomatch hh)⟩
            intro e2 s2 hh
            injection hh with h1 h2
            subst h1
            subst h2
            have hih := (ihBlock _ _ heq).1 _ _ rfl
            exact ⟨hih.1, diagDelta_trans (diagDelta_advance_right (diagDelta_advance_right
              (diagDelta_advance_start s))) hih.2⟩
          · rename_i bodyV s1 heq
            have hd1 := diagDelta_trans (diagDelta_advance_right (diagDelta_advance_right
              (diagDelta_advance_start s))) ((ihBlock _ _ heq).2 _ _ rfl)
            subst hout
            refine ⟨(fun e s1h hh => nomatch hh), ?_⟩
            intro v s2 hh
            injection hh with h1 h2
            subst h2
            exact hd1
    · intro s out hout
      rw [parseIterate] at hout
      try dsimp only at hout
      split at hout
      · subst hout
        refine ⟨?_, (fun v s1 hh => nomatch hh)⟩
        intro e s1 hh
        injection hh with h1 h2
        subst h1
        subst h2
        exact ⟨structuralMsg_iterCount _, diagDelta_advance_start s⟩
      · split at hout
        · subst hout
          refine ⟨?_, (fun v s1 hh => nomatch hh)⟩
          intro e s1 hh
          injection hh with h1 h2
          subst h1
          subst h2
          exact ⟨structuralMsg_timesKw, diagDelta_advance_right (diagDelta_advance_start s)⟩
        · split at hout
          · subst hout
            exact ⟨(fun e s1 hh => nomatch hh), (fun v s1 hh => nomatch hh)⟩
          · rename_i e1 s1 heq
            subst hout
            refine ⟨?_, (fun v s1h hh => nomatch hh)⟩
            intro e2 s2 hh
            injection hh with h1 h2
            subst h1
            subst h2
            have hih := (ihBlock _ _ heq).1 _ _ rfl
            exact ⟨hih.1, diagDelta_trans (diagDelta_advance_right (diagDelta_advance_right
              (diagDelta_advance_start s))) hih.2⟩
          · rename_i bodyV s1 heq
            have hd1 := diagDelta_trans (diagDelta_advance_right (diagDelta_advance_right
              (diagDelta_advance_start s))) ((ihBlock _ _ heq).2 _ _ rfl)
            subst hout
            refine ⟨(fun e s1h hh => nomatch hh), ?_⟩
            intro v s2 hh
            injection hh with h1 h2
            subst h2
            exact hd1
    · intro s out hout
      rw [parseBlock] at hout
      try dsimp only at hout
      split at hout
      · subst hout
        refine ⟨?_, (fun v s1 hh => nomatch hh)⟩
        intro e s1 hh
        injection hh with h1 h2
        subst h1
        subst h2
        exact ⟨structuralMsg_begin, diagDelta_refl s⟩
      · split at hout
        · subst hout
          exact ⟨(fun e s1 hh => nomatch hh), (fun v s1 hh => nomatch hh)⟩
        · rename_i e1 s1 heq
          subst hout
          refine ⟨?_, (fun v s1h hh => nomatch hh)⟩
          intro e2 s2 hh
          injection hh with h1 h2
          subst h1
          subst h2
          have hih := (ihBS _ _ heq).1 _ _ rfl
          exact ⟨hih.1, diagDelta_trans (diagDelta_advance_start s) hih.2⟩
        · rename_i stmts s1 heq
          have hd1 := diagDelta_trans (diagDelta_advance_start s) ((ihBS _ _ heq).2 _ _ rfl)
          split at hout
          · subst hout
            refine ⟨?_, (fun v s1h hh => nomatch hh)⟩
            intro e2 s2 hh
            injection hh with h1 h2
            subst h1
            subst h2
            exact ⟨structuralMsg_unmatched _, hd1⟩
          · subst hout
            refine ⟨(fun e s1h hh => nomatch hh), ?_⟩
            intro v s2 hh
            injection hh with h1 h2
            subst h2
            exact diagDelta_advance_right hd1
    · intro s out hout
      rw [parseBlockStmts] at hout
      try dsimp only at hout
      split at hout
      · split at hout
        · subst hout
          exact ⟨(fun e s1 hh => nomatch hh), (fun v s1 hh => nomatch hh)⟩
        · rename_i e1 s1 heq
          subst hout
          refine ⟨?_, (fun v s1h hh => nomatch hh)⟩
          intro e2 s2 hh
          injection hh with h1 h2
          subst h1
          subst h2
          exact (ihStmt _ _ heq).1 _ _ rfl
        · rename_i x1 s1 heq
          have hd1 := (ihStmt _ _ heq).2 _ _ rfl
          split at hout
          · subst hout
            exact ⟨(fun e s1h hh => nomatch hh), (fun v s1h hh => nomatch hh)⟩
          · rename_i e2 s2 heq2
            subst hout
            refine ⟨?_, (fun v s1h hh => nomatch hh)⟩
            intro e3 s3 hh
            injection hh with h1 h2
            subst h1
            subst h2
            have hih2 := (ihBS _ _ heq2).1 _ _ rfl
            exact ⟨hih2.1, diagDelta_trans hd1 hih2.2⟩
          · rename_i x2 s2 heq2
            subst hout
            refine ⟨(fun e s1h hh => nomatch hh), ?_⟩
            intro v s3 hh
            injection hh with h1 h2
            subst h2
            exact diagDelta_trans hd1 ((ihBS _ _ heq2).2 _ _ rfl)
      · subst hout
        refine ⟨(fun e s1h hh => nomatch hh), ?_⟩
        intro v s2 hh
        injection hh with h1 h2
        subst h2
        exact diagDelta_refl s
    · intro s out hout
      rw [parseStatement] at hout
      try dsimp only at hout
      split at hout
      · exact ihIf _ _ hout
      · exact ihWhile _ _ hout
      · exact ihIter _ _ hout
      · split at hout
        · rename_i stmts s1 heq
          subst hout
          refine ⟨(fun e s1h hh => nomatch hh), ?_⟩
          intro v s2 hh
          injection hh with h1 h2
          subst h2
          exact (ihBlock _ _ heq).2 _ _ rfl
        · rename_i e1 s1 heq
          subst hout
          refine ⟨?_, (fun v s1h hh => nomatch hh)⟩
          intro e2 s2 hh
          injection hh with h1 h2
          subst h1
          subst h2
          exact (ihBlock _ _ heq).1 _ _ rfl
        · subst hout
          exact ⟨(fun e s1 hh => nomatch hh), (fun v s1 hh => nomatch hh)⟩
      · subst hout
        refine ⟨(fun e s1h hh => nomatch hh), ?_⟩
        intro v s2 hh
        injection hh with h1 h2
        subst h2
        exact parseInstructionCall_diagDelta s
    · intro s out hout
      rw [parseDefineInstruction] at hout
      try dsimp only at hout
      split at hout
      · subst hout
        refine ⟨?_, (fun v s1 hh => nomatch hh)⟩
        intro e s1 hh
        injection hh with h1 h2
        subst h1
        subst h2
        exact ⟨structuralMsg_defName, diagDelta_advance_start s⟩
      · split at hout
        · split at hout
          · subst hout
            refine ⟨?_, (fun v s1 hh => nomatch hh)⟩
            intro e s1 hh
            injection hh with h1 h2
            subst h1
            subst h2
            exact ⟨structuralMsg_asKw, diagDelta_setCI _
              (diagDelta_advance_right (diagDelta_advance_start s))⟩
          · split at hout
            · subst hout
              exact ⟨(fun e s1 hh => nomatch hh), (fun v s1 hh => nomatch hh)⟩
            · rename_i e1 s1 heq
              subst hout
              refine ⟨?_, (fun v s1h hh => nomatch hh)⟩
              intro e2 s2 hh
              injection hh with h1 h2
              subst h1
              subst h2
              have hih := (ihBlock _ _ heq).1 _ _ rfl
              exact ⟨hih.1, diagDelta_trans (diagDelta_advance_right (diagDelta_setCI _
                (diagDelta_advance_right (diagDelta_advance_start s)))) hih.2⟩
            · rename_i bodyV s1 heq
              subst hout
              refine ⟨(fun e s1h hh => nomatch hh), ?_⟩
              intro v s2 hh
              injection hh with h1 h2
              subst h2
              exact diagDelta_trans (diagDelta_advance_right (diagDelta_setCI _
                (diagDelta_advance_right (diagDelta_advance_start s)))) ((ihBlock _ _ heq).2 _ _ rfl)
        · split at hout
          · subst hout
            refine ⟨?_, (fun v s1 hh => nomatch hh)⟩
            intro e s1 hh
            injection hh with h1 h2
            subst h1
            subst h2
            exact ⟨structuralMsg_asKw, diagDelta_setCI _
              (diagDelta_advance_right (diagDelta_advance_start s))⟩
          · split at hout
            · subst hout
              exact ⟨(fun e s1 hh => nomatch hh), (fun v s1 hh => nomatch hh)⟩
            · rename_i e1 s1 heq
              subst hout
              refine ⟨?_, (fun v s1h hh => nomatch hh)⟩
              intro e2 s2 hh
              injection hh with h1 h2
              subst h1
              subst h2
              have hih := (ihBlock _ _ heq).1 _ _ rfl
              exact ⟨hih.1, diagDelta_trans (diagDelta_advance_right (diagDelta_setCI _
                (diagDelta_advance_right (diagDelta_advance_start s)))) hih.2⟩
            · rename_i bodyV s1 heq
              subst hout
              refine ⟨(fun e s1h hh => nomatch hh), ?_⟩
              intro v s2 hh
              injection hh with h1 h2
              subst h2
              exact diagDelta_trans (diagDelta_advance_right (diagDelta_setCI _
                (diagDelta_advance_right (diagDelta_advance_start s)))) ((ihBlock _ _ heq).2 _ _ rfl)
    · intro s out hout
      rw [parseDefsLoop] at hout
      try dsimp only at hout
      split at hout
      · split at hout
        · subst hout
          exact ⟨(fun e s1 hh => nomatch hh), (fun v s1 hh => nomatch hh)⟩
        · rename_i e1 s1 heq
          subst hout
          refine ⟨?_, (fun v s1h hh => nomatch hh)⟩
          intro e2 s2 hh
          injection hh with h1 h2
          subst h1
          subst h2
          exact (ihDef _ _ heq).1 _ _ rfl
        · rename_i x1 s1 heq
          have hd1 := (ihDef _ _ heq).2 _ _ rfl
          split at hout
          · subst hout
            exact ⟨(fun e s1h hh => nomatch hh), (fun v s1h hh => nomatch hh)⟩
          · rename_i e2 s2 heq2
            subst hout
            refine ⟨?_, (fun v s1h hh => nomatch hh)⟩
            intro e3 s3 hh
            injection hh with h1 h2
            subst h1
            subst h2
            have hih2 := (ihDL _ _ heq2).1 _ _ rfl
            exact ⟨hih2.1, diagDelta_trans hd1 hih2.2⟩
          · rename_i x2 s2 heq2
            subst hout
            refine ⟨(fun e s1h hh => nomatch hh), ?_⟩
            intro v s3 hh
            injection hh with h1 h2
            subst h2
            exact diagDelta_trans hd1 ((ihDL _ _ heq2).2 _ _ rfl)
      · subst hout
        refine ⟨(fun e s1h hh => nomatch hh), ?_⟩
        intro v s2 hh
        injection hh with h1 h2
        subst h2
        exact diagDelta_refl s
    · intro s out hout
      rw [parseExecStmts] at hout
      try dsimp only at hout
      split at hout
      · split at hout
        · subst hout
          exact ⟨(fun e s1 hh => nomatch hh), (fun v s1 hh => nomatch hh)⟩
        · rename_i e1 s1 heq
          subst hout
          refine ⟨?_, (fun v s1h hh => nomatch hh)⟩
          intro e2 s2 hh
          injection hh with h1 h2
          subst h1
          subst h2
          exact (ihStmt _ _ heq).1 _ _ rfl
        · rename_i x1 s1 heq
          have hd1 := (ihStmt _ _ heq).2 _ _ rfl
          split at hout
          · subst hout
            exact ⟨(fun e s1h hh => nomatch hh), (fun v s1h hh => nomatch hh)⟩
          · rename_i e2 s2 heq2
            subst hout
            refine ⟨?_, (fun v s1h hh => nomatch hh)⟩
            intro e3 s3 hh
            injection hh with h1 h2
            subst h1
            subst h2
            have hih2 := (ihES _ _ heq2).1 _ _ rfl
            exact ⟨hih2.1, diagDelta_trans hd1 hih2.2⟩
          · rename_i x2 s2 heq2
            subst hout
            refine ⟨(fun e s1h hh => nomatch hh), ?_⟩
            intro v s3 hh
            injection hh with h1 h2
            subst h2
            exact diagDelta_trans hd1 ((ihES _ _ heq2).2 _ _ rfl)
      · subst hout
        refine ⟨(fun e s1h hh => nomatch hh), ?_⟩
        intro v s2 hh
        injection hh with h1 h2
        subst h2
        exact diagDelta_refl s
    · intro s out hout
      rw [parseProgram] at hout
      try dsimp only at hout
      split at hout
      · subst hout
        refine ⟨?_, (fun v s1 hh => nomatch hh)⟩
        intro e s1 hh
        injection hh with h1 h2
        subst h1
        subst h2
        exact ⟨structuralMsg_progStart, progDelta_refl s⟩
      · split at hout
        · subst hout
          exact ⟨(fun e s1 hh => nomatch hh), (fun v s1 hh => nomatch hh)⟩
        · rename_i e1 s1 heq
          subst hout
          refine ⟨?_, (fun v s1h hh => nomatch hh)⟩
          intro e2 s2 hh
          injection hh with h1 h2
          subst h1
          subst h2
          have hih := (ihDL _ _ heq).1 _ _ rfl
          exact ⟨hih.1, progDelta_trans (diagDelta_prog (diagDelta_advance_start s))
            (diagDelta_prog hih.2)⟩
        · rename_i defsV s1 heq
          have hd1 := diagDelta_trans (diagDelta_advance_start s) ((ihDL _ _ heq).2 _ _ rfl)
          split at hout
          · subst hout
            refine ⟨?_, (fun v s1h hh => nomatch hh)⟩
            intro e2 s2 hh
            injection hh with h1 h2
            subst h1
            subst h2
            exact ⟨structuralMsg_execStart, diagDelta_prog hd1⟩
          · split at hout
            · subst hout
              exact ⟨(fun e s1h hh => nomatch hh), (fun v s1h hh => nomatch hh)⟩
            · rename_i e2 s3 heq2
              subst hout
              refine ⟨?_, (fun v s1h hh => nomatch hh)⟩
              intro e3 s4 hh
              injection hh with h1 h2
              subst h1
              subst h2
              have hih2 := (ihES _ _ heq2).1 _ _ rfl
              exact ⟨hih2.1, diagDelta_prog (diagDelta_trans (diagDelta_advance_right hd1)
                hih2.2)⟩
            · rename_i stmtsV s3 heq2
              have hd2 := diagDelta_trans (diagDelta_advance_right hd1) ((ihES _ _ heq2).2 _ _ rfl)
              split at hout
              · have hp : progDelta s (pushDiag s3
                    ⟨missingTurnoffMsg, (peek s3).line - 1, 0, none, .error⟩) :=
                  progDelta_push _ (diagDelta_prog hd2) (Or.inr rfl)
                split at hout
                · subst hout
                  refine ⟨?_, (fun v s1 hh => nomatch hh)⟩
                  intro e s1 hh
                  injection hh with h1 h2
                  subst h1
                  subst h2
                  exact ⟨structuralMsg_execEnd, hp⟩
                · split at hout
                  · subst hout
                    refine ⟨?_, (fun v s1 hh => nomatch hh)⟩
                    intro e s1 hh
                    injection hh with h1 h2
                    subst h1
                    subst h2
                    exact ⟨structuralMsg_progEnd, progDelta_advance_right hp⟩
                  · subst hout
                    refine ⟨(fun e s1 hh => nomatch hh), ?_⟩
                    intro v s2 hh
                    injection hh with h1 h2
                    subst h2
                    exact progDelta_advance_right (progDelta_advance_right hp)
              · have hp : progDelta s s3 := diagDelta_prog hd2
                split at hout
                · subst hout
                  refine ⟨?_, (fun v s1 hh => nomatch hh)⟩
                  intro e s1 hh
                  injection hh with h1 h2
                  subst h1
                  subst h2
                  exact ⟨structuralMsg_execEnd, hp⟩
                · split at hout
                  · subst hout
                    refine ⟨?_, (fun v s1 hh => nomatch hh)⟩
                    intro e s1 hh
                    injection hh with h1 h2
                    subst h1
                    subst h2
                    exact ⟨structuralMsg_progEnd, progDelta_advance_right hp⟩
                  · subst hout
                    refine ⟨(fun e s1 hh => nomatch hh), ?_⟩
                    intro v s2 hh
                    injection hh with h1 h2
                    subst h2
                    exact progDelta_advance_right (progDelta_advance_right hp)



/-- Claim C7: `parse` is total (never exhausts its fuel stand-in, i.e. never
throws to its caller); it yields a `none` AST exactly by appending the thrown
structural (fatal) error as a final error diagnostic after the recoverable
diagnostics collected so far; when an AST is produced, every collected
diagnostic is recoverable (unknown instruction, missing semicolon, missing
turnoff), and several of them may accumulate in one parse. -/
theorem C7_parse_total_structural_vs_recoverable (source : String) :
    parse source ≠ none ∧
    (∀ diags, parse source = some (none, diags) →
      ∃ pre d, diags = pre ++ [d] ∧ structuralMsg d.message ∧ d.severity = .error ∧
        ∀ d1 ∈ pre, recoverableMsg d1.message) ∧
    (∀ ast diags, parse source = some (some ast, diags) →
      ∀ d ∈ diags, recoverableMsg d.message) := by
  have hPd := (parser_diag_spec (3 * (tokenize source).length + 10)).2.2.2.2.2.2.2.2.2
    ⟨tokenize source, 0, [], []⟩ _ rfl
  refine ⟨?_, ?_, ?_⟩
  · unfold parse
    dsimp only
    split
    · exact fun h => nomatch h
    · exact fun h => nomatch h
    · rename_i heq
      have hs := (parser_fuel_spec (3 * (tokenize source).length + 10)).2.2.2.2.2.2.2.2.2
        ⟨tokenize source, 0, [], []⟩ (by unfold remainingTokens; dsimp only; omega)
      exact absurd heq hs.1
  · intro diags hp
    unfold parse at hp
    dsimp only at hp
    split at hp
    · rename_i a s heq
      injection hp with hp1
      injection hp1 with hpa hpb
      exact absurd hpa (fun hh => nomatch hh)
    · rename_i e s heq
      injection hp with hp1
      injection hp1 with hpa hpb
      subst hpb
      have hcl := hPd.1 e s heq
      refine ⟨s.diagnostics, _, rfl, hcl.1, rfl, ?_⟩
      intro d1 hd1
      obtain ⟨ds, he, hm⟩ := hcl.2
      rw [he] at hd1
      simp only [List.nil_append] at hd1
      exact hm d1 hd1
    · exact absurd hp (fun hh => nomatch hh)
  · intro ast diags hp
    unfold parse at hp
    dsimp only at hp
    split at hp
    · rename_i a s heq
      injection hp with hp1
      injection hp1 with hpa hpb
      subst hpb
      have hok := hPd.2 a s heq
      intro d hd
      obtain ⟨ds, he, hm⟩ := hok
      rw [he] at hd
      simp only [List.nil_append] at hd
      exact hm d hd
    · rename_i e s heq
      injection hp with hp1
      injection hp1 with hpa hpb
      exact absurd hpa (fun hh => nomatch hh)
    · exact absurd hp (fun hh => nomatch hh)

theorem parseInstructionCall_fst_condOK (s : ParserState) :
    CondOK (parseInstructionCall s).1 := by
  unfold parseInstructionCall
  dsimp only
  exact CondOK.call _ _

theorem parser_cond_spec : ∀ fuel : Nat,
    (∀ s out, parseIf fuel s = out → ∀ v s1, out = .ok v s1 →
      s1.tokens = s.tokens ∧ (TokensCondSound s → CondOK v)) ∧
    (∀ s out, parseWhile fuel s = out → ∀ v s1, out = .ok v s1 →
      s1.tokens = s.tokens ∧ (TokensCondSound s → CondOK v)) ∧
    (∀ s out, parseIterate fuel s = out → ∀ v s1, out = .ok v s1 →
      s1.tokens = s.tokens ∧ (TokensCondSound s → CondOK v)) ∧
    (∀ s out, parseBlock fuel s = out → ∀ v s1, out = .ok v s1 →
      s1.tokens = s.tokens ∧ (TokensCondSound s → ∀ st ∈ v, CondOK st)) ∧
    (∀ s out, parseBlockStmts fuel s = out → ∀ v s1, out = .ok v s1 →
      s1.tokens = s.tokens ∧ (TokensCondSound s → ∀ st ∈ v, CondOK st)) ∧
    (∀ s out, parseStatement fuel s = out → ∀ v s1, out = .ok v s1 →
      s1.tokens = s.tokens ∧ (TokensCondSound s → CondOK v)) ∧
    (∀ s out, parseDefineInstruction fuel s = out → ∀ v s1, out = .ok v s1 →
      s1.tokens = s.tokens ∧ (TokensCondSound s → ∀ st ∈ v.body, CondOK st)) ∧
    (∀ s out, parseDefsLoop fuel s = out → ∀ v s1, out = .ok v s1 →
      s1.tokens = s.tokens ∧ (TokensCondSound s → ∀ df ∈ v, ∀ st ∈ df.body, CondOK st)) ∧
    (∀ s out, parseExecStmts fuel s = out → ∀ v s1, out = .ok v s1 →
      s1.tokens = s.tokens ∧ (TokensCondSound s → ∀ st ∈ v, CondOK st)) ∧
    (∀ s out, parseProgram fuel s = out → ∀ v s1, out = .ok v s1 →
      s1.tokens = s.tokens ∧ (TokensCondSound s → (∀ st ∈ v.execution, CondOK st) ∧ (∀ df ∈ v.definitions, ∀ st ∈ df.body, CondOK st))) := by
  intro fuel
  induction fuel with
  | zero =>
    refine ⟨?_, ?_, ?_, ?_, ?_, ?_, ?_, ?_, ?_, ?_⟩
    · intro s out h
      rw [parseIf] at h
      subst h
      exact fun v s1 hh => nomatch hh
    · intro s out h
      rw [parseWhile] at h
      subst h
      exact fun v s1 hh => nomatch hh
    · intro s out h
      rw [parseIterate] at h
      subst h
      exact fun v s1 hh => nomatch hh
    · intro s out h
      rw [parseBlock] at h
      subst h
      exact fun v s1 hh => nomatch hh
    · intro s out h
      rw [parseBlockStmts] at h
      subst h
      exact fun v s1 hh => nomatch hh
    · intro s out h
      rw [parseStatement] at h
      subst h
      exact fun v s1 hh => nomatch hh
    · intro s out h
      rw [parseDefineInstruction] at h
      subst h
      exact fun v s1 hh => nomatch hh
    · intro s out h
      rw [parseDefsLoop] at h
      subst h
      exact fun v s1 hh => nomatch hh
    · intro s out h
      rw [parseExecStmts] at h
      subst h
      exact fun v s1 hh => nomatch hh
    · intro s out h
      rw [parseProgram] at h
      subst h
      exact fun v s1 hh => nomatch hh
  | succ n ih =>
    obtain ⟨ihIf, ihWhile, ihIter, ihBlock, ihBS, ihStmt, ihDef, ihDL, ihES, ihProg⟩ := ih
    refine ⟨?_, ?_, ?_, ?_, ?_, ?_, ?_, ?_, ?_, ?_⟩
    · intro s out hout
      rw [parseIf] at hout
      try dsimp only at hout
      split at hout
      · subst hout
        exact fun v s1 hh => nomatch hh
      · rename_i hc1
        simp at hc1
        split at hout
        · subst hout
          exact fun v s1 hh => nomatch hh
        · rename_i hc2
          simp at hc2
          split at hout
          · subst hout
            exact fun v s1 hh => nomatch hh
          · subst hout
            exact fun v s1 hh => nomatch hh
          · rename_i thenB s1 heq
            have htok1 := (ihBlock _ _ heq _ _ rfl).1
            split at hout
            · rename_i hce
              split at hout
              · subst hout
                exact fun v s1h hh => nomatch hh
              · subst hout
                exact fun v s1h hh => nomatch hh
              · rename_i elseB s3 heq2
                have hB2 := ihBlock _ _ heq2 _ _ rfl
                subst hout
                intro v s4 hh
                injection hh with h1 h2
                subst h1
                subst h2
                constructor
                · simp only [hB2.1, htok1, advance_tokens]
                · intro hts
                  refine CondOK.ifS _ _ _ _ ?_ ?_ ?_
                  · have htype := check_type_eq _ _ hc1
                    have hne : (peek (advance s).2).type ≠ .EOF := by
                      rw [htype]
                      decide
                    have hmem := peek_mem _ hne
                    have hc := TokensCondSound_of_eq (advance_tokens s) hts _ hmem htype
                    rw [advance_fst_of_not_atEnd _ (check_not_atEnd _ _ hc1 (by decide))]
                    exact hc
                  · intro st hst
                    exact (ihBlock _ _ heq _ _ rfl).2
                      (TokensCondSound_of_eq (by simp only [advance_tokens]) hts) st hst
                  · intro els hh1 st hst
                    injection hh1 with hh2
                    subst hh2
                    exact hB2.2 (TokensCondSound_of_eq
                      (by simp only [htok1, advance_tokens]) hts) st hst
            · subst hout
              intro v s4 hh
              injection hh with h1 h2
              subst h1
              subst h2
              constructor
              · simp only [htok1, advance_tokens]
              · intro hts
                refine CondOK.ifS _ _ _ _ ?_ ?_ ?_
                · have htype := check_type_eq _ _ hc1
                  have hne : (peek (advance s).2).type ≠ .EOF := by
                    rw [htype]
                    decide
                  have hmem := peek_mem _ hne
                  have hc := TokensCondSound_of_eq (advance_tokens s) hts _ hmem htype
                  rw [advance_fst_of_not_atEnd _ (check_not_atEnd _ _ hc1 (by decide))]
                  exact hc
                · intro st hst
                  exact (ihBlock _ _ heq _ _ rfl).2
                    (TokensCondSound_of_eq (by simp only [advance_tokens]) hts) st hst
                · intro els hh1 st hst
                  exact absurd hh1 (fun hx => nomatch hx)
    · intro s out hout
      rw [parseWhile] at hout
      try dsimp only at hout
      split at hout
      · subst hout
        exact fun v s1 hh => nomatch hh
      · rename_i hc1
        simp at hc1
        split at hout
        · subst hout
          exact fun v s1 hh => nomatch hh
        · rename_i hc2
          simp at hc2
          split at hout
          · subst hout
            exact fun v s1 hh => nomatch hh
          · subst hout
            exact fun v s1 hh => nomatch hh
          · rename_i bodyV s1 heq
            have hB := ihBlock _ _ heq _ _ rfl
            subst hout
            intro v s2 hh
            injection hh with h1 h2
            subst h1
            subst h2
            constructor
            · simp only [hB.1, advance_tokens]
            · intro hts
              refine CondOK.whileS _ _ _ ?_ ?_
              · have htype := check_type_eq _ _ hc1
                have hne : (peek (advance s).2).type ≠ .EOF := by
                  rw [htype]
                  decide
                have hmem := peek_mem _ hne
                have hc := TokensCondSound_of_eq (advance_tokens s) hts _ hmem htype
                rw [advance_fst_of_not_atEnd _ (check_not_atEnd _ _ hc1 (by decide))]
                exact hc
              · intro st hst
                exact hB.2 (TokensCondSound_of_eq (by simp only [advance_tokens]) hts) st hst
    · intro s out hout
      rw [parseIterate] at hout
      try dsimp only at hout
      split at hout
      · subst hout
        exact fun v s1 hh => nomatch hh
      · rename_i hc1
        simp at hc1
        split at hout
        · subst hout
          exact fun v s1 hh => nomatch hh
        · rename_i hc2
          simp at hc2
          split at hout
          · subst hout
            exact fun v s1 hh => nomatch hh
          · subst hout
            exact fun v s1 hh => nomatch hh
          · rename_i bodyV s1 heq
            have hB := ihBlock _ _ heq _ _ rfl
            subst hout
            intro v s2 hh
            injection hh with h1 h2
            subst h1
            subst h2
            constructor
            · simp only [hB.1, advance_tokens]
            · intro hts
              refine CondOK.iterate _ _ _ ?_
              intro st hst
              exact hB.2 (TokensCondSound_of_eq (by simp only [advance_tokens]) hts) st hst
    · intro s out hout
      rw [parseBlock] at hout
      try dsimp only at hout
      split at hout
      · subst hout
        exact fun v s1 hh => nomatch hh
      · rename_i hc1
        simp at hc1
        split at hout
        · subst hout
          exact fun v s1 hh => nomatch hh
        · subst hout
          exact fun v s1 hh => nomatch hh
        · rename_i stmts s1 heq
          have hB := ihBS _ _ heq _ _ rfl
          split at hout
          · subst hout
            exact fun v s1h hh => nomatch hh
          · subst hout
            intro v s2 hh
            injection hh with h1 h2
            subst h1
            subst h2
            constructor
            · simp only [advance_tokens, hB.1]
            · intro hts
              exact hB.2 (TokensCondSound_of_eq (by simp only [advance_tokens]) hts)
    · intro s out hout
      rw [parseBlockStmts] at hout
      try dsimp only at hout
      split at hout
      · split at hout
        · subst hout
          exact fun v s1 hh => nomatch hh
        · subst hout
          exact fun v s1 hh => nomatch hh
        · rename_i x1 s1 heq
          have hA := ihStmt _ _ heq _ _ rfl
          split at hout
          · subst hout
            exact fun v s1h hh => nomatch hh
          · subst hout
            exact fun v s1h hh => nomatch hh
          · rename_i x2 s2 heq2
            have hB := ihBS _ _ heq2 _ _ rfl
            subst hout
            intro v s3 hh
            injection hh with h1 h2
            subst h1
            subst h2
            constructor
            · simp only [hB.1, hA.1]
            · intro hts st hst
              rcases List.mem_cons.mp hst with hcase | hcase
              · subst hcase
                exact hA.2 hts
              · exact hB.2 (TokensCondSound_of_eq hA.1 hts) st hcase
      · subst hout
        intro v s2 hh
        injection hh with h1 h2
        subst h1
        subst h2
        exact ⟨rfl, fun hts st hmem => absurd hmem (List.not_mem_nil _)⟩
    · intro s out hout
      rw [parseStatement] at hout
      try dsimp only at hout
      split at hout
      · exact ihIf _ _ hout
      · exact ihWhile _ _ hout
      · exact ihIter _ _ hout
      · split at hout
        · rename_i stmts s1 heq
          have hB := ihBlock _ _ heq _ _ rfl
          subst hout
          intro v s2 hh
          injection hh with h1 h2
          subst h1
          subst h2
          exact ⟨hB.1, fun hts => CondOK.block _ (fun st hst => hB.2 hts st hst)⟩
        · subst hout
          exact fun v s1 hh => nomatch hh
        · subst hout
          exact fun v s1 hh => nomatch hh
      · subst hout
        intro v s2 hh
        injection hh with h1 h2
        subst h1
        subst h2
        exact ⟨parseInstructionCall_tokens s, fun hts => parseInstructionCall_fst_condOK s⟩
    · intro s out hout
      rw [parseDefineInstruction] at hout
      try dsimp only at hout
      split at hout
      · subst hout
        exact fun v s1 hh => nomatch hh
      · rename_i hc1
        simp at hc1
        split at hout
        · split at hout
          · subst hout
            exact fun v s1 hh => nomatch hh
          · split at hout
            · subst hout
              exact fun v s1 hh => nomatch hh
            · subst hout
              exact fun v s1 hh => nomatch hh
            · rename_i bodyV s1 heq
              have hB := ihBlock _ _ heq _ _ rfl
              subst hout
              intro v s2 hh
              injection hh with h1 h2
              subst h1
              subst h2
              constructor
              · rw [hB.1, advance_tokens]
                try dsimp only
                rw [advance_tokens, advance_tokens]
              · intro hts st hst
                refine hB.2 (TokensCondSound_of_eq ?_ hts) st hst
                rw [advance_tokens]
                try dsimp only
                rw [advance_tokens, advance_tokens]
        · split at hout
          · subst hout
            exact fun v s1 hh => nomatch hh
          · split at hout
            · subst hout
              exact fun v s1 hh => nomatch hh
            · subst hout
              exact fun v s1 hh => nomatch hh
            · rename_i bodyV s1 heq
              have hB := ihBlock _ _ heq _ _ rfl
              subst hout
              intro v s2 hh
              injection hh with h1 h2
              subst h1
              subst h2
              constructor
              · rw [hB.1, advance_tokens]
                try dsimp only
                rw [advance_tokens, advance_tokens]
              · intro hts st hst
                refine hB.2 (TokensCondSound_of_eq ?_ hts) st hst
                rw [advance_tokens]
                try dsimp only
                rw [advance_tokens, advance_tokens]
    · intro s out hout
      rw [parseDefsLoop] at hout
      try dsimp only at hout
      split at hout
      · split at hout
        · subst hout
          exact fun v s1 hh => nomatch hh
        · subst hout
          exact fun v s1 hh => nomatch hh
        · rename_i x1 s1 heq
          have hA := ihDef _ _ heq _ _ rfl
          split at hout
          · subst hout
            exact fun v s1h hh => nomatch hh
          · subst hout
            exact fun v s1h hh => nomatch hh
          · rename_i x2 s2 heq2
            have hB := ihDL _ _ heq2 _ _ rfl
            subst hout
            intro v s3 hh
            injection hh with h1 h2
            subst h1
            subst h2
            constructor
            · simp only [hB.1, hA.1]
            · intro hts df hdf
              rcases List.mem_cons.mp hdf with hcase | hcase
              · subst hcase
                exact fun st hst => hA.2 hts st hst
              · exact hB.2 (TokensCondSound_of_eq hA.1 hts) df hcase
      · subst hout
        intro v s2 hh
        injection hh with h1 h2
        subst h1
        subst h2
        exact ⟨rfl, fun hts df hmem => absurd hmem (List.not_mem_nil _)⟩
    · intro s out hout
      rw [parseExecStmts] at hout
      try dsimp only at hout
      split at hout
      · split at hout
        · subst hout
          exact fun v s1 hh => nomatch hh
        · subst hout
          exact fun v s1 hh => nomatch hh
        · rename_i x1 s1 heq
          have hA := ihStmt _ _ heq _ _ rfl
          split at hout
          · subst hout
            exact fun v s1h hh => nomatch hh
          · subst hout
            exact fun v s1h hh => nomatch hh
          · rename_i x2 s2 heq2
            have hB := ihES _ _ heq2 _ _ rfl
            subst hout
            intro v s3 hh
            injection hh with h1 h2
            subst h1
            subst h2
            constructor
            · simp only [hB.1, hA.1]
            · intro hts st hst
              rcases List.mem_cons.mp hst with hcase | hcase
              · subst hcase
                exact hA.2 hts
              · exact hB.2 (TokensCondSound_of_eq hA.1 hts) st hcase
      · subst hout
        intro v s2 hh
        injection hh with h1 h2
        subst h1
        subst h2
        exact ⟨rfl, fun hts st hmem => absurd hmem (List.not_mem_nil _)⟩
    · intro s out hout
      rw [parseProgram] at hout
      try dsimp only at hout
      split at hout
      · subst hout
        exact fun v s1 hh => nomatch hh
      · split at hout
        · subst hout
          exact fun v s1 hh => nomatch hh
        · subst hout
          exact fun v s1 hh => nomatch hh
        · rename_i defsV s1 heq
          have hDL := ihDL _ _ heq _ _ rfl
          split at hout
          · subst hout
            exact fun v s1h hh => nomatch hh
          · split at hout
            · subst hout
              exact fun v s1h hh => nomatch hh
            · subst hout
              exact fun v s1h hh => nomatch hh
            · rename_i stmtsV s3 heq2
              have hES := ihES _ _ heq2 _ _ rfl
              split at hout
              · split at hout
                · subst hout
                  exact fun v s1 hh => nomatch hh
                · split at hout
                  · subst hout
                    exact fun v s1 hh => nomatch hh
                  · subst hout
                    intro v s2 hh
                    injection hh with h1 h2
                    subst h1
                    subst h2
                    constructor
                    · simp only [advance_tokens, pushDiag_tokens, hES.1, hDL.1]
                    · intro hts
                      constructor
                      · intro st hst
                        exact hES.2 (TokensCondSound_of_eq
                          (by simp only [advance_tokens, hDL.1]) hts) st hst
                      · intro df hdf
                        exact hDL.2 (TokensCondSound_of_eq
                          (by simp only [advance_tokens]) hts) df hdf
              · split at hout
                · subst hout
                  exact fun v s1 hh => nomatch hh
                · split at hout
                  · subst hout
                    exact fun v s1 hh => nomatch hh
                  · subst hout
                    intro v s2 hh
                    injection hh with h1 h2
                    subst h1
                    subst h2
                    constructor
                    · simp only [advance_tokens, pushDiag_tokens, hES.1, hDL.1]
                    · intro hts
                      constructor
                      · intro st hst
                        exact hES.2 (TokensCondSound_of_eq
                          (by simp only [advance_tokens, hDL.1]) hts) st hst
                      · intro df hdf
                        exact hDL.2 (TokensCondSound_of_eq
                          (by simp only [advance_tokens]) hts) df hdf



theorem string_data_append (a b : String) : (a ++ b).data = a.data ++ b.data := by
  cases a
  cases b
  rfl

theorem unknownInstruction_ne_turnoff (n : String) (l : Nat) :
    unknownInstructionMsg n l ≠ missingTurnoffMsg := by
  intro h
  have hd := congrArg String.data h
  unfold unknownInstructionMsg at hd
  rw [string_data_append, string_data_append, string_data_append] at hd
  have h0 : some 'U' = some 'M' := congrArg List.head? hd
  exact absurd h0 (by decide)

theorem missingSemicolon_ne_turnoff (l : Nat) :
    missingSemicolonMsg l ≠ missingTurnoffMsg := by
  intro h
  have hd := congrArg String.data h
  unfold missingSemicolonMsg at hd
  rw [string_data_append] at hd
  have h0 : "Missing s".data = "Missing t".data := congrArg (List.take 9) hd
  exact absurd h0 (by decide)

theorem subRecov_ne_turnoff {m : String} (h : subRecovMsg m) : m ≠ missingTurnoffMsg := by
  rcases h with ⟨n, l, he⟩ | ⟨l, he⟩
  · rw [he]
    exact unknownInstruction_ne_turnoff n l
  · rw [he]
    exact missingSemicolon_ne_turnoff l

theorem pushDiag_peek (s : ParserState) (d : Diagnostic) :
    peek (pushDiag s d) = peek s := rfl

theorem parseProgram_ok_diag_shape :
    ∀ fuel s v s1, parseProgram fuel s = .ok v s1 →
    ∃ s3 : ParserState,
      s3.tokens = s.tokens ∧
      (peek s3).type = .EndOfExecution ∧
      diagDelta s s3 ∧
      s1.diagnostics = (if turnoffMissing v.execution then
          s3.diagnostics ++ [⟨missingTurnoffMsg, (peek s3).line - 1, 0, none, .error⟩]
        else s3.diagnostics) := by
  intro fuel
  cases fuel with
  | zero =>
    intro s v s1 h
    rw [parseProgram] at h
    exact absurd h (fun hh => nomatch hh)
  | succ n =>
    intro s v s1 hout
    rw [parseProgram] at hout
    try dsimp only at hout
    split at hout
    · exact absurd hout (fun hh => nomatch hh)
    · split at hout
      · exact absurd hout (fun hh => nomatch hh)
      · exact absurd hout (fun hh => nomatch hh)
      · rename_i defsV s1a heq
        have hdDL := ((parser_diag_spec n).2.2.2.2.2.2.2.1 _ _ heq).2 _ _ rfl
        have htDL := ((parser_cond_spec n).2.2.2.2.2.2.2.1 _ _ heq _ _ rfl).1
        split at hout
        · exact absurd hout (fun hh => nomatch hh)
        · split at hout
          · exact absurd hout (fun hh => nomatch hh)
          · exact absurd hout (fun hh => nomatch hh)
          · rename_i stmtsV s3 heq2
            have hdES := ((parser_diag_spec n).2.2.2.2.2.2.2.2.1 _ _ heq2).2 _ _ rfl
            have htES := ((parser_cond_spec n).2.2.2.2.2.2.2.2.1 _ _ heq2 _ _ rfl).1
            have hd3 : diagDelta s s3 :=
              diagDelta_trans (diagDelta_advance_right
                (diagDelta_trans (diagDelta_advance_start s) hdDL)) hdES
            have ht3 : s3.tokens = s.tokens := by
              simp only [htES, advance_tokens, htDL]
            split at hout
            · rename_i htm
              split at hout
              · exact absurd hout (fun hh => nomatch hh)
              · rename_i hc3
                simp at hc3
                split at hout
                · exact absurd hout (fun hh => nomatch hh)
                · injection hout with h1 h2
                  subst h1
                  subst h2
                  refine ⟨s3, ht3, ?_, hd3, ?_⟩
                  · have := check_type_eq _ _ hc3
                    rw [pushDiag_peek] at this
                    exact this
                  · have hv : turnoffMissing
                        (ProgramNode.mk defsV stmtsV).execution = true := htm
                    rw [hv]
                    simp only [if_true]
                    simp only [advance_diagnostics]
                    unfold pushDiag
                    rfl
            · rename_i htm
              split at hout
              · exact absurd hout (fun hh => nomatch hh)
              · rename_i hc3
                simp at hc3
                split at hout
                · exact absurd hout (fun hh => nomatch hh)
                · injection hout with h1 h2
                  subst h1
                  subst h2
                  refine ⟨s3, ht3, ?_, hd3, ?_⟩
                  · exact check_type_eq _ _ hc3
                  · have hv : turnoffMissing
                        (ProgramNode.mk defsV stmtsV).execution = false := by
                      simp at htm
                      exact htm
                    rw [hv]
                    simp only [advance_diagnostics]
                    simp


/-- Claim C8: for every program parsed without a structural violation, the
parser appends exactly one missing-turnoff diagnostic — with line number one
less than the line of the (END-OF-EXECUTION) token at the cursor after the
execution statements — precisely when the last top-level execution statement
is not a `turnoff` call, and the AST is still returned. -/
theorem C8_missing_turnoff_diagnostic (source : String) (ast : ProgramNode)
    (diags : List Diagnostic) (h : parse source = some (some ast, diags)) :
    (turnoffMissing ast.execution = true →
      ∃ pre tok,
        tok.type = .EndOfExecution ∧
        (∃ i, (tokenize source).getD i eofToken = tok) ∧
        diags = pre ++ [⟨missingTurnoffMsg, tok.line - 1, 0, none, .error⟩] ∧
        ∀ d ∈ pre, d.message ≠ missingTurnoffMsg) ∧
    (turnoffMissing ast.execution = false →
      ∀ d ∈ diags, d.message ≠ missingTurnoffMsg) := by
  unfold parse at h
  dsimp only at h
  split at h
  · rename_i a s heq
    injection h with h1
    injection h1 with ha hb
    injection ha with ha2
    subst ha2
    subst hb
    obtain ⟨s3, ht3, htype, hdelta, hdiag⟩ := parseProgram_ok_diag_shape _ _ _ _ heq
    obtain ⟨ds, hde, hdm⟩ := hdelta
    have hds : s3.diagnostics = ds := by
      rw [hde]
      rfl
    constructor
    · intro htm
      rw [htm, if_pos rfl] at hdiag
      refine ⟨s3.diagnostics, peek s3, htype, ⟨s3.current, ?_⟩, hdiag, ?_⟩
      · show (tokenize source).getD s3.current eofToken = peek s3
        unfold peek
        rw [ht3]
      · intro d hd
        rw [hds] at hd
        exact subRecov_ne_turnoff (hdm d hd)
    · intro htm
      rw [htm, if_neg (by decide)] at hdiag
      intro d hd
      rw [hdiag, hds] at hd
      exact subRecov_ne_turnoff (hdm d hd)
  · rename_i e s heq
    injection h with h1
    injection h1 with ha hb
    exact absurd ha (fun hh => nomatch hh)
  · exact absurd h (fun hh => nomatch hh)


theorem classifyWord_condition (w : String) (h : classifyWord w = .Condition) :
    VALID_CONDITIONS.contains (asciiLower w) = true := by
  unfold classifyWord at h
  split at h
  all_goals try contradiction
  split at h
  · contradiction
  · split at h
    · rename_i hcont
      exact hcont
    · contradiction

theorem tokenizeLine_mem (i : Nat) (l : List Char) (t : Token)
    (h : t ∈ tokenizeLine i l) :
    (∃ w : String, t.type = classifyWord w ∧ t.value = w) ∨ t.type = .Semicolon := by
  unfold tokenizeLine at h
  dsimp only at h
  split at h
  · exact absurd h (List.not_mem_nil t)
  · rw [List.mem_flatten] at h
    obtain ⟨g, hg, htg⟩ := h
    rw [List.mem_map] at hg
    obtain ⟨wl, hwl, rfl⟩ := hg
    rw [List.mem_append] at htg
    cases htg with
    | inl h1 =>
      split at h1
      · split at h1
        · rw [List.mem_singleton] at h1
          subst h1
          exact Or.inl ⟨_, rfl, rfl⟩
        · exact absurd h1 (List.not_mem_nil t)
      · split at h1
        · rw [List.mem_singleton] at h1
          subst h1
          exact Or.inl ⟨_, rfl, rfl⟩
        · exact absurd h1 (List.not_mem_nil t)
    | inr h2 =>
      split at h2
      · rw [List.mem_singleton] at h2
        subst h2
        exact Or.inr rfl
      · exact absurd h2 (List.not_mem_nil t)

/-- Every `Condition` token produced by the lexer carries a name from the
17-entry valid-condition set. -/
theorem tokenize_condition_sound (source : String) :
    ∀ t ∈ tokenize source, t.type = .Condition →
      VALID_CONDITIONS.contains (asciiLower t.value) = true := by
  intro t ht hc
  unfold tokenize at ht
  dsimp only at ht
  rw [List.mem_append] at ht
  cases ht with
  | inr h =>
    rw [List.mem_singleton] at h
    subst h
    exact absurd hc (fun hh => nomatch hh)
  | inl h =>
    rw [List.mem_flatten] at h
    obtain ⟨g, hg, htg⟩ := h
    rw [List.mem_map] at hg
    obtain ⟨p, hp, rfl⟩ := hg
    rcases tokenizeLine_mem _ _ _ htg with ⟨w, hty, hval⟩ | hsemi
    · rw [hval]
      apply classifyWord_condition
      rw [← hty]
      exact hc
    · rw [hsemi] at hc
      exact absurd hc (fun hh => nomatch hh)

/-- A valid condition name always evaluates to a Boolean: the
unknown-condition branch of `evaluateCondition` is unreachable for it. -/
theorem evaluateCondition_isSome (name : String) (w : World)
    (h : VALID_CONDITIONS.contains (asciiLower name) = true) :
    (w.evaluateCondition name).isSome = true := by
  unfold VALID_CONDITIONS at h
  simp at h
  unfold World.evaluateCondition
  dsimp only
  rcases h with h|h|h|h|h|h|h|h|h|h|h|h|h|h|h|h|h <;> rw [h] <;> rfl


/-- Claim C9: every AST the parser produces has all `If`/`While` condition
names inside the fixed 17-entry valid-condition set (both in the execution
block and inside instruction definitions), and `evaluateCondition` applied
to any valid condition name returns a Boolean — its unknown-condition error
branch is unreachable for parser-produced conditions. -/
theorem C9_conditions_valid (source : String) (ast : ProgramNode)
    (diags : List Diagnostic) (h : parse source = some (some ast, diags)) :
    (∀ st ∈ ast.execution, CondOK st) ∧
    (∀ df ∈ ast.definitions, ∀ st ∈ df.body, CondOK st) ∧
    (∀ name, VALID_CONDITIONS.contains (asciiLower name) = true →
      ∀ w : World, (w.evaluateCondition name).isSome = true) := by
  unfold parse at h
  dsimp only at h
  split at h
  · rename_i a s heq
    injection h with h1
    injection h1 with ha hb
    injection ha with ha2
    subst ha2
    have hts : TokensCondSound ⟨tokenize source, 0, [], []⟩ := by
      intro t ht htype
      exact tokenize_condition_sound source t ht htype
    have hcs := ((parser_cond_spec (3 * (tokenize source).length + 10)).2.2.2.2.2.2.2.2.2
      _ _ heq _ _ rfl).2 hts
    exact ⟨hcs.1, hcs.2, fun name hc w => evaluateCondition_isSome name w hc⟩
  · rename_i e s heq
    injection h with h1
    injection h1 with ha hb
    exact absurd ha (fun hh => nomatch hh)
  · exact absurd h (fun hh => nomatch hh)


/-- Witness for C7 at two concrete programs: the structurally broken one
yields a `none` AST with its recoverable diagnostic followed by the fatal
one; the recoverable-only one yields an AST with three recoverable
diagnostics. -/
theorem C7_witness :
    (∃ pre d,
      ([⟨unknownInstructionMsg "foo" 3, 3, 0, none, .error⟩,
        ⟨missingProgramEndMsg, 5, 0, none, .error⟩] : List Diagnostic) = pre ++ [d] ∧
      structuralMsg d.message ∧ d.severity = .error ∧
      ∀ d1 ∈ pre, recoverableMsg d1.message) ∧
    (∀ d ∈ ([⟨unknownInstructionMsg "foo" 3, 3, 0, none, .error⟩,
             ⟨unknownInstructionMsg "bar" 4, 4, 0, none, .error⟩,
             ⟨missingSemicolonMsg 4, 4, 3, none, .error⟩] : List Diagnostic),
      recoverableMsg d.message) :=
  ⟨(C7_parse_total_structural_vs_recoverable srcC7bad).2.1 _ rfl,
   fun d hd => (C7_parse_total_structural_vs_recoverable srcC7multi).2.2 _ _ rfl d hd⟩

/-- Witness for C8 at a concrete program lacking a final `turnoff`: the
single diagnostic is the missing-turnoff one, placed one line above the
END-OF-EXECUTION token. -/
theorem C8_witness :
    ∃ pre tok, tok.type = .EndOfExecution ∧
      (∃ i, (tokenize srcC8).getD i eofToken = tok) ∧
      ([⟨missingTurnoffMsg, 3, 0, none, .error⟩] : List Diagnostic) =
        pre ++ [⟨missingTurnoffMsg, tok.line - 1, 0, none, .error⟩] ∧
      ∀ d ∈ pre, d.message ≠ missingTurnoffMsg :=
  (C8_missing_turnoff_diagnostic srcC8 ⟨[], [.call "move" 3]⟩ _ rfl).1 rfl

/-- Witness for C9 at a concrete program with a `WHILE front-is-clear`
loop. -/
theorem C9_witness :
    (∀ st ∈ ([.whileS "front-is-clear" [.call "move" 5] 3,
              .call "turnoff" 7] : List Stmt), CondOK st) ∧
    (∀ df ∈ ([] : List DefineInstructionNode), ∀ st ∈ df.body, CondOK st) ∧
    (∀ name, VALID_CONDITIONS.contains (asciiLower name) = true →
      ∀ w : World, (w.evaluateCondition name).isSome = true) :=
  C9_conditions_valid srcC9
    ⟨[], [.whileS "front-is-clear" [.call "move" 5] 3, .call "turnoff" 7]⟩ [] rfl
end Parser

theorem asciiLower_literal : asciiLower "Move" = "move" := by decide

/-- `wallKey` is symmetric: the key of (A,B) equals the key of (B,A). -/
theorem wallKey_comm (a b : Position) : wallKey a b = wallKey b a := by
  unfold wallKey
  by_cases h1 : a.x < b.x ∨ (a.x = b.x ∧ a.y < b.y) <;>
    by_cases h2 : b.x < a.x ∨ (b.x = a.x ∧ b.y < a.y) <;>
    simp only [h1, h2, if_true, if_false, if_pos, if_neg, not_false_iff]
  · exfalso; omega
  all_goals
    have hx : a.x = b.x := by omega
    have hy : a.y = b.y := by omega
    cases a; cases b; simp_all

theorem hasWall_comm (w : World) (a b : Position) :
    w.hasWall a b = w.hasWall b a := by
  unfold World.hasWall
  rw [wallKey_comm]

/-- If `executeOneStep`'s loop ends in a thrown `RuntimeError`, the world is
the one the step started from: the world operations mutate nothing before
throwing, and all other loop transitions leave the world untouched. -/
theorem execOneStepAux_err_world (prog : LoadedProgram) :
    ∀ (fuel : Nat) (s s1 : InterpState) (e : RuntimeError),
      execOneStepAux prog fuel s = (.err e, s1) → s1.world = s.world := by
  intro fuel
  induction fuel with
  | zero =>
    intro s s1 e h
    simp [execOneStepAux] at h
  | succ n ih =>
    intro s s1 e h
    rw [execOneStepAux] at h
    dsimp only at h
    repeat' split at h
    all_goals first
      | (have hw := ih _ _ _ h; exact hw)
      | (cases h; rfl)
      | simp_all

/-- C3.  A registered wall blocks both directions, a `move()` attempt into
(or out of) the walled neighbour throws the blocked-path error, and a step
that ends in a thrown runtime error leaves the world — hence the robot's
position — exactly as it was when the step began. -/
theorem C3_walls_block_both_directions :
    (∀ (w : World) (a b : Position), wallKey a b ∈ w.walls →
      w.isBlocked a b = true ∧ w.isBlocked b a = true) ∧
    (∀ w : World, wallKey w.karel.position w.karel.frontPosition ∈ w.walls →
      w.move = .error "Cannot move: front is blocked") ∧
    (∀ (prog : LoadedProgram) (s s1 : InterpState) (e : RuntimeError),
      executeOneStep prog s = (.err e, s1) → s1.world = s.world) := by
  refine ⟨?_, ?_, ?_⟩
  · intro w a b hmem
    constructor
    · unfold World.isBlocked
      split
      · rfl
      · simp [World.hasWall, hmem]
    · unfold World.isBlocked
      split
      · rfl
      · simp [World.hasWall, wallKey_comm, hmem]
  · intro w hmem
    unfold World.move
    have hb : w.frontIsBlocked = true := by
      unfold World.frontIsBlocked World.isBlocked
      split
      · rfl
      · simp [World.hasWall, hmem]
    simp [hb]
  · intro prog s s1 e h
    exact execOneStepAux_err_world prog _ s s1 e h

/-- Witness for C3 at a concrete world: a wall between (1,1) and (1,2),
robot at (1,1) facing north. -/
theorem C3_witness :
    (let wallW : World :=
      { dimensions := ⟨3, 3⟩, karel := ⟨⟨1, 1⟩, .north, 0⟩, beepers := [],
        walls := [wallKey ⟨1, 1⟩ ⟨1, 2⟩], initialKarel := ⟨⟨1, 1⟩, .north, 0⟩,
        initialBeepers := [], isModified := false };
    wallW.isBlocked ⟨1, 1⟩ ⟨1, 2⟩ = true ∧ wallW.isBlocked ⟨1, 2⟩ ⟨1, 1⟩ = true ∧
      wallW.move = .error "Cannot move: front is blocked") := by
  refine ⟨(C3_walls_block_both_directions.1 _ ⟨1, 1⟩ ⟨1, 2⟩ (by decide)).1,
          (C3_walls_block_both_directions.1 _ ⟨1, 1⟩ ⟨1, 2⟩ (by decide)).2,
          C3_walls_block_both_directions.2.1 _ (by decide)⟩

/-! ### Beeper-map lemmas for C5 -/

theorem beepersGet_set_self (m : List (Position × Nat)) (p : Position) (n : Nat) :
    beepersGet (beepersSet m p n) p = some n := by
  induction m with
  | nil => simp [beepersSet, beepersGet]
  | cons e rest ih =>
    obtain ⟨q, c⟩ := e
    by_cases h : q = p
    · simp [beepersSet, beepersGet, h]
    · simp [beepersSet, beepersGet, h, ih]

theorem beepersGet_set_other (m : List (Position × Nat)) (p q : Position) (n : Nat)
    (hne : q ≠ p) : beepersGet (beepersSet m p n) q = beepersGet m q := by
  have hpq : ¬ p = q := fun hh => hne hh.symm
  induction m with
  | nil => simp [beepersSet, beepersGet, hpq]
  | cons e rest ih =>
    obtain ⟨r, c⟩ := e
    by_cases h : r = p
    · have hrq : ¬ r = q := by rw [h]; exact hpq
      simp [beepersSet, beepersGet, h, hrq, hpq]
    · simp only [beepersSet, if_neg h, beepersGet]
      by_cases h2 : r = q
      · simp [h2]
      · simp [h2, ih]

theorem beepersGet_delete_other (m : List (Position × Nat)) (p q : Position)
    (hne : q ≠ p) : beepersGet (beepersDelete m p) q = beepersGet m q := by
  have hpq : ¬ p = q := fun hh => hne hh.symm
  induction m with
  | nil => simp [beepersDelete]
  | cons e rest ih =>
    obtain ⟨r, c⟩ := e
    by_cases h : r = p
    · have hrq : ¬ r = q := by rw [h]; exact hpq
      simp [beepersDelete, beepersGet, h, hrq, hpq]
    · simp only [beepersDelete, if_neg h, beepersGet]
      by_cases h2 : r = q
      · simp [h2]
      · simp [h2, ih]

/-- With JS-`Map`-unique keys, deleting a key removes it entirely. -/
theorem beepersGet_delete_self (m : List (Position × Nat)) (p : Position)
    (hnd : (m.map Prod.fst).Nodup) : beepersGet (beepersDelete m p) p = none := by
  induction m with
  | nil => simp [beepersDelete, beepersGet]
  | cons e rest ih =>
    obtain ⟨r, c⟩ := e
    simp only [List.map_cons, List.nodup_cons] at hnd
    by_cases h : r = p
    · subst h
      simp only [beepersDelete, if_pos rfl]
      clear ih
      induction rest with
      | nil => simp [beepersGet]
      | cons e2 rest2 ih2 =>
        obtain ⟨r2, c2⟩ := e2
        simp only [List.map_cons, List.mem_cons, List.nodup_cons] at hnd
        have hr2 : ¬ r2 = r := fun hh => hnd.1 (Or.inl hh.symm)
        simp only [beepersGet, if_neg hr2]
        exact ih2 ⟨fun hm => hnd.1 (Or.inr hm), hnd.2.2⟩
    · simp only [beepersDelete, if_neg h, beepersGet, if_neg h]
      exact ih hnd.2

theorem mem_beepersSet (m : List (Position × Nat)) (p : Position) (n : Nat)
    (e : Position × Nat) (he : e ∈ beepersSet m p n) : e ∈ m ∨ e = (p, n) := by
  induction m with
  | nil =>
    simp only [beepersSet, List.mem_singleton] at he
    exact Or.inr he
  | cons f rest ih =>
    obtain ⟨q, c⟩ := f
    by_cases h : q = p
    · simp only [beepersSet, if_pos h, List.mem_cons] at he
      rcases he with he1 | he1
      · exact Or.inr (by rw [he1, h])
      · exact Or.inl (List.mem_cons_of_mem _ he1)
    · simp only [beepersSet, if_neg h, List.mem_cons] at he
      rcases he with he1 | he1
      · exact Or.inl (by rw [he1]; exact List.mem_cons_self _ _)
      · rcases ih he1 with hm | hm
        · exact Or.inl (List.mem_cons_of_mem _ hm)
        · exact Or.inr hm

theorem mem_beepersDelete (m : List (Position × Nat)) (p : Position)
    (e : Position × Nat) (he : e ∈ beepersDelete m p) : e ∈ m := by
  induction m with
  | nil => simp [beepersDelete] at he
  | cons f rest ih =>
    obtain ⟨q, c⟩ := f
    by_cases h : q = p
    · simp only [beepersDelete, if_pos h] at he
      exact List.mem_cons_of_mem _ he
    · simp only [beepersDelete, if_neg h, List.mem_cons] at he
      rcases he with he1 | he1
      · rw [he1]; exact List.mem_cons_self _ _
      · exact List.mem_cons_of_mem _ (ih he1)

/-- Characterization of `removeBeeper` by the current beeper count. -/
theorem removeBeeper_eq (w : World) (p : Position) :
    w.removeBeeper p =
      (if w.getBeepers p = 0 then none
       else if w.getBeepers p = 1 then
         some { w with beepers := beepersDelete w.beepers p }
       else some { w with beepers := beepersSet w.beepers p (w.getBeepers p - 1) }) := by
  unfold World.removeBeeper World.getBeepers
  simp only [Nat.le_zero]

/-- C5.  `pickBeeper` fails exactly when the robot's cell has no beeper,
`putBeeper` fails exactly when the bag is empty; on success exactly one
beeper moves between the cell and the bag (other cells and the robot's
position/facing untouched), a cell entry is deleted when its count reaches
zero, and all stored counts stay positive. -/
theorem C5_pick_put_beepers (w : World)
    (hnd : (w.beepers.map Prod.fst).Nodup)
    (hpos : ∀ e ∈ w.beepers, 0 < e.2) :
    ((∃ msg, w.pickBeeper = .error msg) ↔ w.getBeepers w.karel.position = 0) ∧
    ((∃ msg, w.putBeeper = .error msg) ↔ w.karel.beepersInBag = 0) ∧
    (∀ w1, w.pickBeeper = .ok w1 →
      w1.karel.position = w.karel.position ∧
      w1.karel.facing = w.karel.facing ∧
      w1.karel.beepersInBag = w.karel.beepersInBag + 1 ∧
      w1.getBeepers w.karel.position + 1 = w.getBeepers w.karel.position ∧
      (∀ p, p ≠ w.karel.position → w1.getBeepers p = w.getBeepers p) ∧
      (w.getBeepers w.karel.position = 1 →
        beepersGet w1.beepers w.karel.position = none) ∧
      (∀ e ∈ w1.beepers, 0 < e.2)) ∧
    (∀ w1, w.putBeeper = .ok w1 →
      w1.karel.position = w.karel.position ∧
      w1.karel.facing = w.karel.facing ∧
      w1.karel.beepersInBag + 1 = w.karel.beepersInBag ∧
      w1.getBeepers w.karel.position = w.getBeepers w.karel.position + 1 ∧
      (∀ p, p ≠ w.karel.position → w1.getBeepers p = w.getBeepers p) ∧
      (∀ e ∈ w1.beepers, 0 < e.2)) := by
  refine ⟨?_, ?_, ?_, ?_⟩
  · unfold World.pickBeeper
    dsimp only
    rw [removeBeeper_eq]
    by_cases hz : w.getBeepers w.karel.position = 0
    · simp [hz]
    · by_cases ho : w.getBeepers w.karel.position = 1 <;> simp [hz, ho]
  · unfold World.putBeeper Karel.putBeeper
    by_cases hz : w.karel.beepersInBag = 0
    · simp [hz]
    · simp [hz]
  · intro w1 hok
    unfold World.pickBeeper at hok
    dsimp only at hok
    rw [removeBeeper_eq] at hok
    by_cases hz : w.getBeepers w.karel.position = 0
    · simp [hz] at hok
    · by_cases ho : w.getBeepers w.karel.position = 1
      · simp [hz, ho] at hok
        subst hok
        refine ⟨rfl, rfl, rfl, ?_, ?_, ?_, ?_⟩
        · show (beepersGet (beepersDelete w.beepers w.karel.position)
              w.karel.position).getD 0 + 1 = w.getBeepers w.karel.position
          rw [beepersGet_delete_self w.beepers w.karel.position hnd, ho]
          rfl
        · intro p hp
          show (beepersGet (beepersDelete w.beepers w.karel.position) p).getD 0
              = w.getBeepers p
          rw [beepersGet_delete_other w.beepers w.karel.position p hp]
          rfl
        · intro _
          exact beepersGet_delete_self w.beepers w.karel.position hnd
        · intro e he
          exact hpos e (mem_beepersDelete _ _ _ he)
      · simp [hz, ho] at hok
        subst hok
        have h2 : 2 ≤ w.getBeepers w.karel.position := by omega
        refine ⟨rfl, rfl, rfl, ?_, ?_, ?_, ?_⟩
        · show (beepersGet (beepersSet w.beepers w.karel.position
              (w.getBeepers w.karel.position - 1)) w.karel.position).getD 0 + 1
              = w.getBeepers w.karel.position
          rw [beepersGet_set_self]
          show w.getBeepers w.karel.position - 1 + 1 = _
          omega
        · intro p hp
          show (beepersGet (beepersSet w.beepers w.karel.position
              (w.getBeepers w.karel.position - 1)) p).getD 0 = w.getBeepers p
          rw [beepersGet_set_other _ _ _ _ hp]
          rfl
        · intro ho1
          exact absurd ho1 ho
        · intro e he
          rcases mem_beepersSet _ _ _ _ he with hm | hm
          · exact hpos e hm
          · rw [hm]; show 0 < w.getBeepers w.karel.position - 1; omega
  · intro w1 hok
    unfold World.putBeeper Karel.putBeeper at hok
    by_cases hz : w.karel.beepersInBag = 0
    · simp [hz] at hok
    · simp [hz] at hok
      subst hok
      refine ⟨rfl, rfl, ?_, ?_, ?_, ?_⟩
      · show w.karel.beepersInBag - 1 + 1 = w.karel.beepersInBag
        omega
      · show (beepersGet (beepersSet w.beepers w.karel.position
            ((beepersGet w.beepers w.karel.position).getD 0 + 1))
            w.karel.position).getD 0 = w.getBeepers w.karel.position + 1
        rw [beepersGet_set_self]
        rfl
      · intro p hp
        show (beepersGet (beepersSet w.beepers w.karel.position
            ((beepersGet w.beepers w.karel.position).getD 0 + 1)) p).getD 0
            = w.getBeepers p
        rw [beepersGet_set_other _ _ _ _ hp]
        rfl
      · intro e he
        rcases mem_beepersSet _ _ _ _ he with hm | hm
        · exact hpos e hm
        · rw [hm]; show 0 < _ + 1; omega

/-- Witness for C5 at the concrete world `c5w`. -/
theorem C5_witness :
    ((∃ msg, c5w.putBeeper = .error msg) ↔ c5w.karel.beepersInBag = 0) ∧
    ((∃ msg, c5w.pickBeeper = .error msg) ↔ c5w.getBeepers c5w.karel.position = 0) :=
  ⟨(C5_pick_put_beepers c5w (by decide) (by decide)).2.1,
   (C5_pick_put_beepers c5w (by decide) (by decide)).1⟩

/-! ### Preservation lemmas for C4 -/

theorem removeBeeper_preserves (w w1 : World) (p : Position)
    (h : w.removeBeeper p = some w1) :
    w1.karel = w.karel ∧ w1.initialKarel = w.initialKarel ∧
    w1.initialBeepers = w.initialBeepers ∧ w1.walls = w.walls ∧
    w1.dimensions = w.dimensions := by
  rw [removeBeeper_eq] at h
  split at h
  · cases h
  · split at h <;> (injection h with h2; subst h2; exact ⟨rfl, rfl, rfl, rfl, rfl⟩)

/-- Each successful robot operation touches only the live robot/beeper state:
the construction snapshot, the wall set and the dimensions are untouched. -/
theorem applyOp_preserves (w w1 : World) (op : WorldOp)
    (h : applyOp w op = .ok w1) :
    w1.initialKarel = w.initialKarel ∧ w1.initialBeepers = w.initialBeepers ∧
    w1.walls = w.walls ∧ w1.dimensions = w.dimensions := by
  cases op
  · simp only [applyOp] at h
    unfold World.move at h
    split at h
    · cases h
    · injection h with h2; subst h2; exact ⟨rfl, rfl, rfl, rfl⟩
  · simp only [applyOp] at h
    injection h with h2; subst h2; exact ⟨rfl, rfl, rfl, rfl⟩
  · simp only [applyOp] at h
    unfold World.pickBeeper at h
    dsimp only at h
    cases hrem : w.removeBeeper w.karel.position with
    | none => rw [hrem] at h; cases h
    | some w2 =>
      rw [hrem] at h
      injection h with h2
      subst h2
      obtain ⟨hk, hik, hib, hw, hd⟩ := removeBeeper_preserves w w2 _ hrem
      exact ⟨hik, hib, hw, hd⟩
  · simp only [applyOp] at h
    unfold World.putBeeper at h
    cases hputk : w.karel.putBeeper with
    | none => rw [hputk] at h; cases h
    | some k =>
      rw [hputk] at h
      injection h with h2
      subst h2
      exact ⟨rfl, rfl, rfl, rfl⟩

theorem applyOps_preserves (ops : List WorldOp) : ∀ (w w1 : World),
    applyOps w ops = .ok w1 →
    w1.initialKarel = w.initialKarel ∧ w1.initialBeepers = w.initialBeepers ∧
    w1.walls = w.walls ∧ w1.dimensions = w.dimensions := by
  induction ops with
  | nil =>
    intro w w1 h
    injection h with h2
    subst h2
    exact ⟨rfl, rfl, rfl, rfl⟩
  | cons op rest ih =>
    intro w w1 h
    simp only [applyOps] at h
    cases hop : applyOp w op with
    | error e => rw [hop] at h; cases h
    | ok w2 =>
      rw [hop] at h
      obtain ⟨a1, a2, a3, a4⟩ := applyOp_preserves w w2 op hop
      obtain ⟨b1, b2, b3, b4⟩ := ih w2 w1 h
      exact ⟨b1.trans a1, b2.trans a2, b3.trans a3, b4.trans a4⟩

/-- C4.  After any sequence of successful operations on a constructed world,
`reset()` restores the robot (position, facing, bag) and every cell's beeper
count to the construction values, clears the modified flag, and leaves the
wall set and dimensions unchanged. -/
theorem C4_reset_restores (m : KarelMap) (w w1 : World) (ops : List WorldOp)
    (hmap : World.ofMap m = some w) (hops : applyOps w ops = .ok w1) :
    w1.reset.karel = m.karel ∧
    w1.reset.beepers = World.buildBeepers m.beepers ∧
    w1.reset.isModified = false ∧
    w1.reset.walls = w.walls ∧
    w1.reset.dimensions = m.dimensions ∧
    w1.walls = w.walls ∧ w1.dimensions = w.dimensions := by
  unfold World.ofMap at hmap
  cases hbw : World.buildWalls m.walls with
  | none => rw [hbw] at hmap; cases hmap
  | some walls =>
    rw [hbw] at hmap
    injection hmap with h2
    subst h2
    obtain ⟨a1, a2, a3, a4⟩ := applyOps_preserves ops _ w1 hops
    exact ⟨a1, a2, rfl, a3, a4, a3, a4⟩

/-- Witness for C4: pick a beeper then turn left on `c4w`, then reset. -/
theorem C4_witness :
    c4w1.reset.karel = c4map.karel ∧
    c4w1.reset.beepers = World.buildBeepers c4map.beepers ∧
    c4w1.reset.isModified = false ∧ c4w1.reset.walls = c4w.walls :=
  let h := C4_reset_restores c4map c4w c4w1 [.pickBeeper, .turnLeft] rfl rfl
  ⟨h.1, h.2.1, h.2.2.1, h.2.2.2.1⟩

/-- C10.  Once the completed flag is set, every further `step()` call returns
`false` and leaves the interpreter state (world, frame stack, flags)
untouched. -/
theorem C10_step_after_completed (prog : LoadedProgram) (s : InterpState)
    (hinit : s.stepInitialized = true) (hdone : s.stepCompleted = true) :
    stepFn prog s = (false, s) := by
  unfold stepFn
  simp [hinit, hdone]

/-- Witness for C10 at a concrete completed state. -/
theorem C10_witness :
    stepFn (loadProgram turnrightProgram) completedState = (false, completedState) :=
  C10_step_after_completed (loadProgram turnrightProgram) completedState rfl rfl

/-- C1 (code behaviour at the spec's scenario).  Executing the program that
defines `turnright` as three `turnleft`s and invokes it once, `step()`
returns `true` exactly 4 times — the custom-instruction dispatch itself
consumes a visible step (`executeOneStep` returns `true` right after
`executeCallSync` pushes the body frame), contradicting the spec's count of
3 — while the final facing is indeed east (270° counter-clockwise). -/
theorem C1_custom_dispatch_consumes_step :
    visibleStepCount (loadProgram turnrightProgram) 20 (freshInterp emptyWorld3) = 4 ∧
    (stepRepeat (loadProgram turnrightProgram) 20
        (freshInterp emptyWorld3)).world.karel.facing = .east :=
  ⟨by decide, by decide⟩

/-! ### Iteration-ceiling and termination lemmas -/

/-- The loop of `executeOneStep` can never exhaust its fuel budget: every
iteration increments the counter, and the ceiling check throws once the
counter passes `maxIterations`. -/
theorem execOneStepAux_no_fuelOut (prog : LoadedProgram) :
    ∀ (fuel : Nat) (s : InterpState), 1 ≤ fuel →
      s.maxIterations + 1 ≤ fuel + s.iterationCount →
      (execOneStepAux prog fuel s).1 ≠ .fuelOut := by
  intro fuel
  induction fuel with
  | zero => intro s h1 _ _; omega
  | succ n ih =>
    intro s h1 h2 hcontra
    rw [execOneStepAux] at hcontra
    dsimp only at hcontra
    repeat' split at hcontra
    all_goals first
      | (exact absurd hcontra (by simp))
      | (exact ih _ (by try dsimp only at *
                        omega)
          (by try dsimp only at *
              omega) hcontra)

/-- `executeOneStep` terminates for every program and state (its fuel is
never exhausted). -/
theorem executeOneStep_no_fuelOut (prog : LoadedProgram) (s : InterpState) :
    (executeOneStep prog s).1 ≠ .fuelOut :=
  execOneStepAux_no_fuelOut prog (s.maxIterations + 1) s (by omega) (by omega)

/-- C6.  Each frame-stack transition increments the iteration counter and,
once the counter has reached the ceiling, the very next transition throws
the distinguished maximum-iterations runtime error; `executeOneStep`
terminates for every program and state (it never exhausts its fuel, which
stands for the loop running forever); the ceiling's default value is
100000; and on an always-true `while` loop stepping indeed halts (with the
ceiling error having marked the run completed). -/
theorem C6_iteration_ceiling :
    (∀ (prog : LoadedProgram) (s : InterpState) (frame : Frame) (rest : List Frame),
      s.executionStack = frame :: rest → s.maxIterations ≤ s.iterationCount →
      executeOneStep prog s =
        (.err ⟨maxIterationsMsg s.maxIterations, none⟩,
         { s with iterationCount := s.iterationCount + 1 })) ∧
    (∀ (prog : LoadedProgram) (s : InterpState),
      (executeOneStep prog s).1 ≠ .fuelOut) ∧
    (∀ w : World, (freshInterp w).maxIterations = 100000) ∧
    (stepRepeat (loadProgram whileTrueProgram) 50
        (freshInterpWith emptyWorld3 10)).stepCompleted = true := by
  refine ⟨?_, executeOneStep_no_fuelOut, fun _ => rfl, by decide⟩
  intro prog s frame rest hst hge
  unfold executeOneStep
  rw [execOneStepAux]
  dsimp only
  rw [hst]
  have hlt : s.maxIterations < s.iterationCount + 1 := by omega
  simp [hlt]

/-- Witness for C6's ceiling conjunct at the concrete state `c6state`. -/
theorem C6_witness :
    executeOneStep (loadProgram turnrightProgram) c6state =
      (.err ⟨maxIterationsMsg 3, none⟩, { c6state with iterationCount := 4 }) :=
  C6_iteration_ceiling.1 (loadProgram turnrightProgram) c6state (.block [] 0) []
    rfl (by decide)

/-! ### Invariant lemmas shared by the step/run equivalence -/

/-- A successful `executeCallSync` never touches the step flags, the ceiling
or the iteration counter. -/
theorem execCallSync_ok_fields (prog : LoadedProgram) (s s3 : InterpState)
    (name : String) (line : Nat)
    (h : executeCallSync prog s name line = .ok s3) :
    s3.stepInitialized = s.stepInitialized ∧ s3.stepCompleted = s.stepCompleted ∧
    s3.maxIterations = s.maxIterations ∧ s3.iterationCount = s.iterationCount := by
  unfold executeCallSync at h
  dsimp only at h
  repeat' split at h
  all_goals first
    | (cases h; exact ⟨rfl, rfl, rfl, rfl⟩)
    | (cases h)

/-- `executeOneStep`'s loop never touches the step flags or the ceiling;
whenever it returns `true` the `running` flag is still set and the
iteration counter has strictly increased while staying at most the
ceiling. -/
theorem execOneStepAux_invariants (prog : LoadedProgram) :
    ∀ (fuel : Nat) (s : InterpState) (r : StepOutcome) (s1 : InterpState),
      execOneStepAux prog fuel s = (r, s1) →
      s1.stepInitialized = s.stepInitialized ∧
      s1.stepCompleted = s.stepCompleted ∧
      s1.maxIterations = s.maxIterations ∧
      (r = .more → s1.running = true ∧
        s.iterationCount < s1.iterationCount ∧
        s1.iterationCount ≤ s.maxIterations) := by
  intro fuel
  induction fuel with
  | zero =>
    intro s r s1 h
    cases h
    exact ⟨rfl, rfl, rfl, fun hh => nomatch hh⟩
  | succ n ih =>
    intro s r s1 h
    rw [execOneStepAux] at h
    dsimp only at h
    repeat' split at h
    all_goals first
      | (cases h
         refine ⟨?_, ?_, ?_, fun hh => ?_⟩ <;> first | rfl | contradiction)
      | (have hw := ih _ _ _ h
         exact ⟨hw.1, hw.2.1, hw.2.2.1, fun hh =>
           ⟨(hw.2.2.2 hh).1,
            Nat.lt_trans (Nat.lt_succ_self _) (hw.2.2.2 hh).2.1,
            (hw.2.2.2 hh).2.2⟩⟩)
      | (rename_i s3 heq hcond
         cases h
         have hq := execCallSync_ok_fields _ _ _ _ _ heq
         refine ⟨?_, ?_, ?_, fun hh => ?_⟩
         · exact hq.1
         · exact hq.2.1
         · exact hq.2.2.1
         · first
             | contradiction
             | (refine ⟨?_, ?_, ?_⟩
                · simpa using hcond
                · rw [hq.2.2.2]; dsimp only; omega
                · rw [hq.2.2.2]; dsimp only; omega))

/-- A `step()` call on a completed interpreter returns `false` and changes
nothing. -/
theorem stepFn_completed (prog : LoadedProgram) (s : InterpState)
    (h1 : s.stepInitialized = true) (h2 : s.stepCompleted = true) :
    stepFn prog s = (false, s) := by
  unfold stepFn
  simp [h1, h2]

theorem running_update_id (s : InterpState) (h : s.running = true) :
    { s with running := true } = s := by
  cases s
  simp_all

/-- On an initialized, running, not-yet-completed state, `step()` is exactly
one `executeOneStep` with its outcome folded into the completion flag. -/
theorem stepFn_not_completed (prog : LoadedProgram) (s : InterpState)
    (h1 : s.stepInitialized = true) (h2 : s.running = true)
    (h3 : s.stepCompleted = false) :
    stepFn prog s =
      (match executeOneStep prog s with
       | (.more, s1) => (true, s1)
       | (.noMore, s1) => (false, { s1 with stepCompleted := true })
       | (.err _, s1) => (false, { s1 with stepCompleted := true })
       | (.fuelOut, s1) => (false, s1)) := by
  obtain ⟨w, st, run, cl, mi, ic, si, sc⟩ := s
  dsimp only at h1 h2 h3
  subst h1
  subst h2
  subst h3
  rfl

/-- Driving the interpreter by repeated `step()` calls and driving it by
`run()`'s internal loop produce literally the same states, fuel for fuel. -/
theorem stepRepeat_eq_runLoop (prog : LoadedProgram) :
    ∀ (fuel : Nat) (s : InterpState),
      s.stepInitialized = true → s.running = true →
      stepRepeat prog fuel s = runLoopAux prog fuel s := by
  intro fuel
  induction fuel with
  | zero => intro s _ _; rfl
  | succ n ih =>
    intro s h1 h2
    by_cases hc : s.stepCompleted = true
    · rw [stepRepeat, runLoopAux, stepFn_completed prog s h1 hc]
      simp [hc]
    · have hcf : s.stepCompleted = false := by
        cases hsc : s.stepCompleted
        · rfl
        · exact absurd hsc hc
      rw [stepRepeat, runLoopAux, stepFn_not_completed prog s h1 h2 hcf]
      cases hout : executeOneStep prog s with
      | mk rr ss =>
        cases rr with
        | more =>
          have hinv := execOneStepAux_invariants prog (s.maxIterations + 1) s _ _ hout
          have hrun : ss.running = true := (hinv.2.2.2 rfl).1
          have hini : ss.stepInitialized = true := hinv.1.trans h1
          simp [hout, h2, hcf]
          exact ih ss hini hrun
        | noMore => simp [hout, h2, hcf]
        | err e => simp [hout, h2, hcf]
        | fuelOut =>
          have hnf := executeOneStep_no_fuelOut prog s
          rw [hout] at hnf
          exact absurd rfl hnf

/-- Stepping from an initialized, running state reaches the completed flag
within `maxIterations + 2` step calls: each `true`-returning step strictly
increases the iteration counter while it stays below the ceiling. -/
theorem stepRepeat_completes (prog : LoadedProgram) :
    ∀ (fuel : Nat) (s : InterpState),
      s.stepInitialized = true → s.running = true →
      (s.stepCompleted = true ∨ s.iterationCount ≤ s.maxIterations) →
      s.maxIterations + 2 ≤ fuel + s.iterationCount →
      (stepRepeat prog fuel s).stepCompleted = true := by
  intro fuel
  induction fuel with
  | zero =>
    intro s h1 h2 h3 h4
    rcases h3 with h3 | h3
    · exact h3
    · omega
  | succ n ih =>
    intro s h1 h2 h3 h4
    by_cases hc : s.stepCompleted = true
    · rw [stepRepeat, stepFn_completed prog s h1 hc]
      exact hc
    · have hcf : s.stepCompleted = false := by
        cases hsc : s.stepCompleted
        · rfl
        · exact absurd hsc hc
      have hcount : s.iterationCount ≤ s.maxIterations := by
        rcases h3 with h3 | h3
        · exact absurd h3 hc
        · exact h3
      rw [stepRepeat, stepFn_not_completed prog s h1 h2 hcf]
      cases hout : executeOneStep prog s with
      | mk rr ss =>
        cases rr with
        | more =>
          have hinv := execOneStepAux_invariants prog (s.maxIterations + 1) s _ _ hout
          have hmore := hinv.2.2.2 rfl
          have hini : ss.stepInitialized = true := hinv.1.trans h1
          have hmi : ss.maxIterations = s.maxIterations := hinv.2.2.1
          dsimp only
          exact ih ss hini hmore.1
            (Or.inr (by rw [hmi]; exact hmore.2.2))
            (by rw [hmi]; omega)
        | noMore => rfl
        | err e => rfl
        | fuelOut =>
          have hnf := executeOneStep_no_fuelOut prog s
          rw [hout] at hnf
          exact absurd rfl hnf

/-- C2.  Driving a freshly loaded program by repeated `step()` calls and by a
single `run()` yields the same final world, fuel for fuel; and
`maxIterations + 2` step calls always reach the `false` return, so the
"call `step()` until it returns `false`" procedure is well defined. -/
theorem C2_step_until_false_equals_run (ast : ProgramNode) (w : World)
    (mi fuel : Nat) :
    (stepRepeat (loadProgram ast) fuel (freshInterpWith w mi)).world
      = (runFn (loadProgram ast) fuel (freshInterpWith w mi)).world ∧
    (mi + 2 ≤ fuel →
      (stepRepeat (loadProgram ast) fuel
        (freshInterpWith w mi)).stepCompleted = true) := by
  have hkey : ∀ n : Nat,
      stepRepeat (loadProgram ast) (n + 1) (freshInterpWith w mi)
        = stepRepeat (loadProgram ast) (n + 1)
            (stepInit (loadProgram ast) (freshInterpWith w mi)) := by
    intro n
    rw [stepRepeat, stepRepeat]
    rfl
  constructor
  · cases fuel with
    | zero => rfl
    | succ n =>
      rw [hkey n,
        stepRepeat_eq_runLoop (loadProgram ast) (n + 1) _ rfl rfl]
      rfl
  · intro hf
    cases fuel with
    | zero => omega
    | succ n =>
      rw [hkey n]
      refine stepRepeat_completes (loadProgram ast) (n + 1) _ rfl rfl
        (Or.inr ?_) ?_
      · show (0 : Nat) ≤ mi
        omega
      · show mi + 2 ≤ (n + 1) + 0
        omega

/-- Witness for C2: the `turnright` program on the empty world with ceiling
100 and fuel 102. -/
theorem C2_witness :
    (stepRepeat (loadProgram turnrightProgram) 102
        (freshInterpWith emptyWorld3 100)).world
      = (runFn (loadProgram turnrightProgram) 102
          (freshInterpWith emptyWorld3 100)).world ∧
    (stepRepeat (loadProgram turnrightProgram) 102
        (freshInterpWith emptyWorld3 100)).stepCompleted = true :=
  ⟨(C2_step_until_false_equals_run turnrightProgram emptyWorld3 100 102).1,
   (C2_step_until_false_equals_run turnrightProgram emptyWorld3 100 102).2
     (by decide)⟩

end VSKarel
